import Mathlib

/-
Verification development for the Monitor_news crypto monitoring service.

The embedding below translates the TypeScript services of the repository
into executable Lean definitions:
  - string values are Lean String values; the JavaScript string primitives
    used by the code (toLowerCase, trim, split, slice, truthiness of a
    possibly missing value) are modelled by executable functions on the
    underlying character lists;
  - a MongoDB collection is a list of documents in insertion order;
    mongoose schema validation on insert (unique index, enum validator)
    is modelled by an explicit admission check;
  - each network call is an asynchronous input of the modelled function
    and is passed in as an explicit parameter (an Option value, none
    meaning the call failed or the promise rejected);
  - a Mongo sort({key: -1}) is modelled by an executable insertion sort
    descending on the key.
-/

/-! ## JavaScript string primitives -/

/-- Model of JavaScript String.prototype.toLowerCase, character by character. -/
def jsToLower (s : String) : String := ⟨s.data.map Char.toLower⟩

/-- Characters removed from both ends by String.prototype.trim. -/
def trimLeftChars (l : List Char) : List Char := l.dropWhile Char.isWhitespace

/-- Model of JavaScript String.prototype.trim. -/
def jsTrim (s : String) : String :=
  ⟨(trimLeftChars ((trimLeftChars s.data.reverse).reverse))⟩

/-- The normalized title used as the news dedup key in the spec:
lower-cased then trimmed, as in item.title.toLowerCase().trim(). -/
def normTitle (s : String) : String := jsTrim (jsToLower s)

/-- JavaScript truthiness of a string: the empty string is falsy. -/
def jsStrTruthy (s : String) : Bool := !s.data.isEmpty

/-- JavaScript truthiness of a possibly missing string value
(undefined and the empty string are falsy). -/
def jsOptStrTruthy : Option String → Bool
  | none => false
  | some s => jsStrTruthy s

/-- JavaScript a || b for a possibly missing string a: falls back to b
when a is undefined or empty. -/
def jsOrStr (a : Option String) (b : String) : String :=
  match a with
  | none => b
  | some s => if s.data.isEmpty then b else s

/-- JavaScript s || b for a plain string s: the empty string falls back. -/
def jsNonEmptyOr (s b : String) : String := if s.data.isEmpty then b else s

/-- JavaScript a || b for a possibly missing number a (0 is falsy). -/
def jsOrInt (a : Option Int) (b : Int) : Int :=
  match a with
  | none => b
  | some t => if t = 0 then b else t

/-- Model of JavaScript str.split on the two-colon separator,
as in coin_type.split of the Sui event parser. -/
def splitOnColons : List Char → List Char → List (List Char)
  | [], acc => [acc.reverse]
  | [c], acc => [(c :: acc).reverse]
  | c1 :: c2 :: cs, acc =>
    if c1 = ':' ∧ c2 = ':' then acc.reverse :: splitOnColons cs []
    else splitOnColons (c2 :: cs) (c1 :: acc)

/-- JavaScript s.split on the separator of two colons. -/
def jsSplitColons (s : String) : List String :=
  (splitOnColons s.data []).map (fun l => ⟨l⟩)

/-- JavaScript s.slice(-n): the last n characters of s. -/
def jsSliceLast (s : String) (n : Nat) : String :=
  ⟨s.data.drop (s.data.length - n)⟩

/-! ## Descending sort by an integer key

Models both Mongo sort({key: -1}) queries and the JavaScript
array sort((a, b) => b.key - a.key) calls of the aggregator. -/

/-- Insert x into a list kept in descending key order. -/
def sortByKeyDescIns {α : Type} (key : α → Int) (x : α) : List α → List α
  | [] => [x]
  | y :: ys => if key y < key x then x :: y :: ys else y :: sortByKeyDescIns key x ys

/-- Sort a list in descending order of an integer key (insertion sort). -/
def sortByKeyDesc {α : Type} (key : α → Int) : List α → List α
  | [] => []
  | x :: xs => sortByKeyDescIns key x (sortByKeyDesc key xs)

theorem sortByKeyDescIns_perm {α : Type} (key : α → Int) (x : α) (l : List α) :
    (sortByKeyDescIns key x l).Perm (x :: l) := by
  induction l with
  | nil => simp [sortByKeyDescIns]
  | cons y ys ih =>
    by_cases h : key y < key x
    · simp [sortByKeyDescIns, h]
    · simp only [sortByKeyDescIns, if_neg h]
      exact (ih.cons y).trans (List.Perm.swap x y ys)

theorem sortByKeyDesc_perm {α : Type} (key : α → Int) (l : List α) :
    (sortByKeyDesc key l).Perm l := by
  induction l with
  | nil => simp [sortByKeyDesc]
  | cons x xs ih =>
    exact (sortByKeyDescIns_perm key x (sortByKeyDesc key xs)).trans (ih.cons x)

theorem mem_sortByKeyDesc {α : Type} {key : α → Int} {x : α} {l : List α} :
    x ∈ sortByKeyDesc key l ↔ x ∈ l :=
  (sortByKeyDesc_perm key l).mem_iff

theorem sortByKeyDescIns_pairwise {α : Type} (key : α → Int) (x : α) {l : List α}
    (h : l.Pairwise (fun a b => key b ≤ key a)) :
    (sortByKeyDescIns key x l).Pairwise (fun a b => key b ≤ key a) := by
  induction l with
  | nil => simp [sortByKeyDescIns]
  | cons y ys ih =>
    rcases List.pairwise_cons.mp h with ⟨hy, hys⟩
    by_cases hxy : key y < key x
    · simp only [sortByKeyDescIns, if_pos hxy]
      refine List.pairwise_cons.mpr ⟨?_, h⟩
      intro z hz
      rcases List.mem_cons.mp hz with rfl | hz
      · exact le_of_lt hxy
      · exact le_trans (hy z hz) (le_of_lt hxy)
    · simp only [sortByKeyDescIns, if_neg hxy]
      refine List.pairwise_cons.mpr ⟨?_, ih hys⟩
      intro z hz
      have hz' := (sortByKeyDescIns_perm key x ys).mem_iff.mp hz
      rcases List.mem_cons.mp hz' with rfl | hz'
      · exact le_of_not_lt hxy
      · exact hy z hz'

theorem sortByKeyDesc_pairwise {α : Type} (key : α → Int) (l : List α) :
    (sortByKeyDesc key l).Pairwise (fun a b => key b ≤ key a) := by
  induction l with
  | nil => simp [sortByKeyDesc]
  | cons x xs ih => exact sortByKeyDescIns_pairwise key x ih

theorem sortByKeyDescIns_map {α : Type} (key : α → Int) (f : α → α)
    (hf : ∀ a, key (f a) = key a) (x : α) (l : List α) :
    sortByKeyDescIns key (f x) (l.map f) = (sortByKeyDescIns key x l).map f := by
  induction l with
  | nil => simp [sortByKeyDescIns]
  | cons y ys ih =>
    by_cases h : key y < key x
    · simp [sortByKeyDescIns, hf, h]
    · simp [sortByKeyDescIns, hf, h, ih]

theorem sortByKeyDesc_map {α : Type} (key : α → Int) (f : α → α)
    (hf : ∀ a, key (f a) = key a) (l : List α) :
    sortByKeyDesc key (l.map f) = (sortByKeyDesc key l).map f := by
  induction l with
  | nil => simp [sortByKeyDesc]
  | cons x xs ih => simp [sortByKeyDesc, ih, sortByKeyDescIns_map key f hf]

/-! ### Facts about a Mongo find().sort().limit() selection

Every selection in the services has the shape
take n (sortByKeyDesc key (filter p coll)). -/

theorem mem_selection {α : Type} {key : α → Int} {p : α → Bool} {n : Nat}
    {l : List α} {x : α} (hx : x ∈ (sortByKeyDesc key (l.filter p)).take n) :
    x ∈ l ∧ p x = true := by
  have h1 : x ∈ sortByKeyDesc key (l.filter p) := List.mem_of_mem_take hx
  have h2 : x ∈ l.filter p := mem_sortByKeyDesc.mp h1
  exact ⟨List.mem_of_mem_filter h2, List.of_mem_filter h2⟩

theorem selection_nodup {α β : Type} (key : α → Int) (p : α → Bool) (f : α → β)
    (n : Nat) (l : List α) (h : (l.map f).Nodup) :
    (((sortByKeyDesc key (l.filter p)).take n).map f).Nodup := by
  have hfilter : ((l.filter p).map f).Nodup :=
    List.Nodup.sublist ((l.filter_sublist).map f) h
  have hsort : ((sortByKeyDesc key (l.filter p)).map f).Nodup :=
    (((sortByKeyDesc_perm key (l.filter p)).map f).nodup_iff).mpr hfilter
  exact List.Nodup.sublist ((List.take_sublist n _).map f) hsort

theorem selection_map_comm {α : Type} (key : α → Int) (p : α → Bool) (f : α → α)
    (n : Nat) (l : List α) (hkey : ∀ a, key (f a) = key a)
    (hp : ∀ a, p (f a) = p a) :
    (sortByKeyDesc key ((l.map f).filter p)).take n
      = ((sortByKeyDesc key (l.filter p)).take n).map f := by
  have hfilter : (l.map f).filter p = (l.filter p).map f := by
    rw [List.filter_map]
    congr 1
    exact List.filter_congr (fun a _ => by simp [Function.comp, hp])
  rw [hfilter, sortByKeyDesc_map key f hkey, List.map_take]

/-! ## Data model (src/types/index.ts, src/models) -/

/-- CoinData of src/types/index.ts: the uniform record a scanner emits.
Market numbers are carried opaquely as integers; no claim computes with them. -/
structure CoinData where
  id : String
  symbol : String
  name : String
  network : String
  contractAddress : String
  marketCap : Int
  volume24h : Int
  price : Int
  priceChange24h : Int
  launchTime : Int
  deriving DecidableEq

/-- NewsItem of src/types/index.ts: a news item produced by the aggregator. -/
structure NewsItem where
  id : String
  title : String
  description : String
  url : String
  publishedAt : Int
  coinSymbol : String
  network : String
  source : String
  deriving DecidableEq

/-- A persisted Coin document (src/models/Coin.ts). -/
structure Coin where
  id : String
  symbol : String
  name : String
  network : String
  contractAddress : String
  marketCap : Int
  volume24h : Int
  price : Int
  priceChange24h : Int
  launchTime : Int
  isPosted : Bool
  isTelegramPosted : Bool
  deriving DecidableEq

/-- new Coin(coinData): schema fields copied, posted flags default false. -/
def Coin.ofData (d : CoinData) : Coin :=
  { id := d.id, symbol := d.symbol, name := d.name, network := d.network,
    contractAddress := d.contractAddress, marketCap := d.marketCap,
    volume24h := d.volume24h, price := d.price,
    priceChange24h := d.priceChange24h, launchTime := d.launchTime,
    isPosted := false, isTelegramPosted := false }

/-- A persisted News document (src/models/News.ts). -/
structure NewsDoc where
  id : String
  title : String
  description : String
  url : String
  publishedAt : Int
  coinSymbol : String
  network : String
  source : String
  isPosted : Bool
  isTelegramPosted : Bool
  deriving DecidableEq

/-- new News(newsItem): schema fields copied, posted flags default false. -/
def NewsDoc.ofItem (d : NewsItem) : NewsDoc :=
  { id := d.id, title := d.title, description := d.description, url := d.url,
    publishedAt := d.publishedAt, coinSymbol := d.coinSymbol,
    network := d.network, source := d.source,
    isPosted := false, isTelegramPosted := false }

/-! ## Schema-level admission (mongoose validation on save)

CoinSchema and NewsSchema both declare unique: true on the id field and
an enum validator on the network field; neither declares any other unique
index (in particular there is no unique index on
(contractAddress, network) and none on title). -/

/-- The closed set of chain tags of the network enum in CoinSchema and
NewsSchema (src/models/Coin.ts line 28, src/models/News.ts line 26). -/
def networkEnum : List String := ["sui", "bnb"]

/-- Admission check the Coin store itself performs on an insert:
the unique index on id, and the enum validator on network.
These are the only constraints CoinSchema declares. -/
def coinInsertOk (store : List Coin) (c : Coin) : Bool :=
  store.all (fun c0 => !(c0.id == c.id)) && networkEnum.contains c.network

/-- Admission check the News store itself performs on an insert:
the unique index on id, and the enum validator on network. -/
def newsInsertOk (store : List NewsDoc) (n : NewsDoc) : Bool :=
  store.all (fun m => !(m.id == n.id)) && networkEnum.contains n.network

/-! ## MonitoringService (src/services/MonitoringService.ts) -/

/-- MonitoringService.saveNewCoins: for each candidate, findOne on
(contractAddress, network); save only when no coin was found and the
schema admits the document (a save error is caught and the loop
continues). Returns the new store and the saved count. -/
def saveNewCoins (store : List Coin) : List CoinData → List Coin × Nat
  | [] => (store, 0)
  | coinData :: rest =>
    if store.any (fun c =>
        c.contractAddress == coinData.contractAddress && c.network == coinData.network) then
      saveNewCoins store rest
    else if coinInsertOk store (Coin.ofData coinData) then
      let r := saveNewCoins (store ++ [Coin.ofData coinData]) rest
      (r.1, r.2 + 1)
    else
      saveNewCoins store rest

/-- MonitoringService.saveNews: for each item, findOne on the exact
trimmed title; save only when no document was found and the schema
admits it (a validation error on save is caught and the loop continues). -/
def saveNews (store : List NewsDoc) : List NewsItem → List NewsDoc
  | [] => store
  | newsItem :: rest =>
    if store.any (fun n => n.title == jsTrim newsItem.title) then
      saveNews store rest
    else if newsInsertOk store (NewsDoc.ofItem newsItem) then
      saveNews (store ++ [NewsDoc.ofItem newsItem]) rest
    else
      saveNews store rest

/-- Repeated saveNewCoins cycles, one batch of scanner output per cycle. -/
def runCoinSaveBatches (store : List Coin) : List (List CoinData) → List Coin
  | [] => store
  | batch :: rest => runCoinSaveBatches (saveNewCoins store batch).1 rest

/-- Repeated saveNews cycles, one batch of aggregator output per cycle. -/
def runNewsSaveBatches (store : List NewsDoc) : List (List NewsItem) → List NewsDoc
  | [] => store
  | batch :: rest => runNewsSaveBatches (saveNews store batch) rest

/-! ## EnhancedCryptoNewsService (src/services/EnhancedCryptoNewsService.ts)

Each upstream fetch is modelled by its already-settled result: a
NewsFetchResult with the success flag and data of the axios wrapper
(the wrappers catch internally, so a settled promise is always
fulfilled and failure is the success = false case). -/

/-- The success/data pair every news fetch method of the service returns. -/
structure NewsFetchResult where
  success : Bool
  data : List NewsItem
  deriving DecidableEq

/-- A raw CryptoPanic post as consumed by getCryptoPanicNews. -/
structure CryptoPanicPost where
  postId : String
  title : String
  description : String
  url : String
  published_at : Int
  deriving DecidableEq

/-- The mapping getCryptoPanicNews applies to one raw post: note the
network field is the literal string general. -/
def cryptoPanicItem (p : CryptoPanicPost) : NewsItem :=
  { id := "cp_" ++ p.postId, title := p.title, description := p.description,
    url := p.url, publishedAt := p.published_at, coinSymbol := "",
    network := "general", source := "CryptoPanic" }

/-- getCryptoPanicNews: maps the response posts on success, returns a
failed result when the request threw. -/
def getCryptoPanicNews (response : Option (List CryptoPanicPost)) : NewsFetchResult :=
  match response with
  | some posts => ⟨true, posts.map cryptoPanicItem⟩
  | none => ⟨false, []⟩

/-- getGeneralCryptoNews: CryptoPanic primary, CoinTelegraph fallback;
a source is used only when it succeeded with at least one item, and the
whole path fails when neither did. -/
def getGeneralCryptoNews (cryptoPanicResult coinTelegraphResult : NewsFetchResult) :
    NewsFetchResult :=
  if cryptoPanicResult.success && !cryptoPanicResult.data.isEmpty then
    cryptoPanicResult
  else if coinTelegraphResult.success && !coinTelegraphResult.data.isEmpty then
    coinTelegraphResult
  else
    ⟨false, []⟩

/-- The loop body of removeDuplicates: the seen set of normalized title
keys already emitted. -/
def removeDuplicatesGo (seen : List String) : List NewsItem → List NewsItem
  | [] => []
  | item :: rest =>
    let key := jsTrim (jsToLower item.title)
    if seen.contains key then removeDuplicatesGo seen rest
    else item :: removeDuplicatesGo (key :: seen) rest

/-- EnhancedCryptoNewsService.removeDuplicates: keep the first item for
each title.toLowerCase().trim() key. -/
def removeDuplicates (news : List NewsItem) : List NewsItem :=
  removeDuplicatesGo [] news

/-- getSuiNews: both sources always run (Promise.allSettled); whichever
succeeded contributes its items; the merged list is deduplicated; the
returned result is unconditionally a success. -/
def getSuiNews (newsApiResult googleRssResult : NewsFetchResult) : NewsFetchResult :=
  let suiNews :=
    (if newsApiResult.success then newsApiResult.data else []) ++
    (if googleRssResult.success then googleRssResult.data else [])
  ⟨true, removeDuplicates suiNews⟩

/-- The data field of getAllNews. -/
structure AllNewsData where
  general : List NewsItem
  sui : List NewsItem
  combined : List NewsItem
  deriving DecidableEq

/-- The result of getAllNews. -/
structure AllNewsResult where
  success : Bool
  data : AllNewsData
  deriving DecidableEq

/-- getAllNews: general path with fallback, SUI path, and the combined
list sorted by publish date descending. -/
def getAllNews (cryptoPanicResult coinTelegraphResult newsApiResult googleRssResult :
    NewsFetchResult) : AllNewsResult :=
  let generalResult := getGeneralCryptoNews cryptoPanicResult coinTelegraphResult
  let suiResult := getSuiNews newsApiResult googleRssResult
  let generalNews := if generalResult.success then generalResult.data else []
  let suiNews := if suiResult.success then suiResult.data else []
  let combinedNews := sortByKeyDesc (fun n => n.publishedAt) (generalNews ++ suiNews)
  ⟨true, ⟨generalNews, suiNews, combinedNews⟩⟩

/-! ## OnchainPairScannerService (src/services/OnchainPairScannerService .ts) -/

/-- The loop state of the findIndex-based duplicate filter: the JS
coins.filter((coin, index, arr) => arr.findIndex(c =>
c.contractAddress === coin.contractAddress) === index) keeps exactly
the first element for each exact (case-sensitive, ===) contractAddress;
seen is the set of addresses already emitted. -/
def keepFirstByAddress (seen : List String) : List CoinData → List CoinData
  | [] => []
  | coin :: rest =>
    if seen.contains coin.contractAddress then keepFirstByAddress seen rest
    else coin :: keepFirstByAddress (coin.contractAddress :: seen) rest

/-- OnchainPairScannerService.removeDuplicatesAndSort: drop all but the
first record per exact contractAddress, then sort by launch time
descending. -/
def removeDuplicatesAndSort (coins : List CoinData) : List CoinData :=
  sortByKeyDesc (fun c => c.launchTime) (keepFirstByAddress [] coins)

/-- The id object of a raw Sui event. -/
structure SuiEventId where
  txDigest : String
  eventSeq : Option String
  deriving DecidableEq

/-- A typed token of a token_x/token_y shaped payload. -/
structure SuiTokenInfo where
  symbol : Option String
  name : Option String
  deriving DecidableEq

/-- The loosely typed parsedJson payload of a raw Sui event: each
recognized field may be absent. -/
structure SuiParsedJson where
  token_x : Option SuiTokenInfo
  token_y : Option SuiTokenInfo
  coin_type_a : Option String
  coin_type_b : Option String
  coin_type : Option String
  pool_id : Option String
  pair : Option String
  deriving DecidableEq

/-- A raw Sui event as consumed by parseSuiEvent. -/
structure SuiEvent where
  timestampMs : Option Int
  parsedJson : Option SuiParsedJson
  id : Option SuiEventId
  type : Option String
  deriving DecidableEq

/-- OnchainPairScannerService.parseSuiEvent. The four payload shapes are
tried in source order with the event-type fallback last; a JavaScript
throw from accessing ev.id.txDigest on a missing ev.id is caught by the
surrounding try and modelled by returning none; the final
if (!contractAddress) return null guard is the isEmpty check inside
finish. now stands for Date.now(). -/
def parseSuiEvent (now : Int) (ev : SuiEvent) : Option CoinData :=
  let eventTime := jsOrInt ev.timestampMs now
  let event := ev.parsedJson
  let tokenX := event.bind SuiParsedJson.token_x
  let tokenY := event.bind SuiParsedJson.token_y
  let coinTypeA := event.bind SuiParsedJson.coin_type_a
  let coinTypeB := event.bind SuiParsedJson.coin_type_b
  let coinType := event.bind SuiParsedJson.coin_type
  let poolId := event.bind SuiParsedJson.pool_id
  let pairField := event.bind SuiParsedJson.pair
  let initialAddress := (ev.id.map (fun i => i.txDigest)).getD ""
  let finish : String → String → String → Option CoinData :=
    fun symbol name contractAddress =>
      if contractAddress.data.isEmpty then none
      else some {
        id := contractAddress ++ "-" ++ jsOrStr (ev.id.bind SuiEventId.eventSeq) (toString now),
        symbol := symbol, name := name, network := "sui",
        contractAddress := contractAddress,
        marketCap := 0, volume24h := 0, price := 0, priceChange24h := 0,
        launchTime := eventTime }
  if tokenX.isSome && tokenY.isSome then
    let symbol := jsOrStr ((tokenX.getD ⟨none, none⟩).symbol) "UNK" ++ "/" ++
      jsOrStr ((tokenY.getD ⟨none, none⟩).symbol) "UNK"
    let name := jsOrStr ((tokenX.getD ⟨none, none⟩).name) "Unknown" ++ " / " ++
      jsOrStr ((tokenY.getD ⟨none, none⟩).name) "Unknown"
    if jsOptStrTruthy pairField then finish symbol name (pairField.getD "")
    else
      match ev.id with
      | some i => finish symbol name i.txDigest
      | none => none
  else if jsOptStrTruthy coinTypeA && jsOptStrTruthy coinTypeB then
    let symbolA := jsNonEmptyOr ((jsSplitColons (coinTypeA.getD "")).getLastD "") "UNK"
    let symbolB := jsNonEmptyOr ((jsSplitColons (coinTypeB.getD "")).getLastD "") "UNK"
    if jsOptStrTruthy poolId then
      finish (symbolA ++ "/" ++ symbolB) (symbolA ++ " / " ++ symbolB) (poolId.getD "")
    else
      match ev.id with
      | some i => finish (symbolA ++ "/" ++ symbolB) (symbolA ++ " / " ++ symbolB) i.txDigest
      | none => none
  else if jsOptStrTruthy coinType then
    let symbol := jsNonEmptyOr ((jsSplitColons (coinType.getD "")).getLastD "") "UNKNOWN"
    finish symbol symbol (coinType.getD "")
  else if jsOptStrTruthy poolId then
    finish ("POOL_" ++ jsSliceLast (poolId.getD "") 8)
      ("Pool " ++ jsSliceLast (poolId.getD "") 8) (poolId.getD "")
  else if jsOptStrTruthy ev.type then
    let typeParts := jsSplitColons (ev.type.getD "")
    if typeParts.length ≥ 3 then
      match ev.id with
      | some i =>
        finish ((typeParts.getD 2 "") ++ "_" ++ jsSliceLast i.txDigest 6)
          ((typeParts.getD 2 "") ++ " Event") initialAddress
      | none => none
    else finish "UNKNOWN" "Unknown Token" initialAddress
  else finish "UNKNOWN" "Unknown Token" initialAddress

/-! ### Block cache (getBlockWithCache, lines 933 to 995)

The cache is a JS Map in insertion order, modelled as an association
list whose head is the oldest entry. One call either hits the cache, or
fetches: fetched is the block the rate-limited retry loop eventually
obtained (none when every attempt returned null so nothing was cached;
the synthetic fallback block of the outer catch is never cached either,
so it is also the none case). -/

structure CachedBlock where
  number : Nat
  timestamp : Int
  deriving DecidableEq

/-- One getBlockWithCache call: cache hit, else on a successful fetch
delete the oldest entry when size exceeds 100 and append the new one. -/
def getBlockWithCache (cache : List (Nat × CachedBlock)) (blockNumber : Nat)
    (fetched : Option CachedBlock) : Option CachedBlock × List (Nat × CachedBlock) :=
  match cache.lookup blockNumber with
  | some b => (some b, cache)
  | none =>
    match fetched with
    | some block =>
      let cache1 := if cache.length > 100 then cache.tail else cache
      (some block, cache1 ++ [(blockNumber, block)])
    | none => (none, cache)

/-- A sequence of block lookups within one scan invocation, threading
the cache; each call carries its block number and fetch outcome. -/
def runBlockLookups (cache : List (Nat × CachedBlock)) :
    List (Nat × Option CachedBlock) → List (Nat × CachedBlock)
  | [] => cache
  | (bn, fetched) :: rest => runBlockLookups (getBlockWithCache cache bn fetched).2 rest

/-! ## Publication state (src/models/Tweet.ts, src/models/TelegramMessage.ts,
src/services/TweetService.ts, src/services/TelegramService.ts) -/

/-- A persisted Tweet document: the publication fact for the Twitter
destination. TweetSchema declares no unique index on coinId or newsId. -/
structure TweetFact where
  coinId : Option String
  newsId : Option String
  type : String
  tweetId : String
  isPosted : Bool
  deriving DecidableEq

/-- A persisted TelegramMessage document: the publication fact for one
Telegram chat destination, keyed by chatId. TelegramMessageSchema
declares no unique index on (newsId, chatId) or (coinId, chatId). -/
structure TelegramMessageFact where
  coinId : Option String
  newsId : Option String
  type : String
  messageId : Nat
  chatId : String
  isPosted : Bool
  deriving DecidableEq

/-- The persisted state the publish cycles read and write. -/
structure AppDB where
  coins : List Coin
  newsItems : List NewsDoc
  tweets : List TweetFact
  telegramMessages : List TelegramMessageFact
  deriving DecidableEq

/-! ### Selections (the find().sort().limit() queries of the cycles) -/

/-- Coin.find(isPosted false).sort(launchTime desc).limit(2)
of TweetService.processNewCoinTweets. -/
def twitterUnpostedCoins (db : AppDB) : List Coin :=
  (sortByKeyDesc (fun c => c.launchTime) (db.coins.filter (fun c => !c.isPosted))).take 2

/-- News.find(isPosted false).sort(publishedAt desc).limit(1)
of TweetService.processNewsTweets. -/
def twitterUnpostedNews (db : AppDB) : List NewsDoc :=
  (sortByKeyDesc (fun n => n.publishedAt) (db.newsItems.filter (fun n => !n.isPosted))).take 1

/-- Coin.find(isTelegramPosted false).sort(launchTime desc).limit(2)
of TelegramService.processNewCoinMessages. -/
def telegramUnpostedCoins (db : AppDB) : List Coin :=
  (sortByKeyDesc (fun c => c.launchTime)
    (db.coins.filter (fun c => !c.isTelegramPosted))).take 2

/-- News.find(isTelegramPosted false).sort(publishedAt desc).limit(1)
of TelegramService.processNewsMessages. -/
def telegramUnpostedNews (db : AppDB) : List NewsDoc :=
  (sortByKeyDesc (fun n => n.publishedAt)
    (db.newsItems.filter (fun n => !n.isTelegramPosted))).take 1

/-- The networks the group-news query accepts. -/
def groupNewsNetworks : List String := ["general", "sui", "bnb"]

/-- News.find(network in general, sui, bnb).sort(publishedAt desc).limit(20)
of TelegramService.processGroupNews. -/
def groupNewsCandidates (db : AppDB) : List NewsDoc :=
  (sortByKeyDesc (fun n => n.publishedAt)
    (db.newsItems.filter (fun n => groupNewsNetworks.contains n.network))).take 20

/-- TelegramService.isNewsPostedToDestination: TelegramMessage.findOne
on (newsId, chatId, isPosted true). -/
def isNewsPostedToDestination (db : AppDB) (newsId chatId : String) : Bool :=
  db.telegramMessages.any
    (fun m => m.newsId == some newsId && m.chatId == chatId && m.isPosted)

/-- The newsToPost loop of processGroupNews: the first candidate with no
publication fact for the group destination. -/
def groupNewsToPost (db : AppDB) (groupId : String) : Option NewsDoc :=
  (groupNewsCandidates db).find? (fun n => !isNewsPostedToDestination db n.id groupId)

/-! ### Writes performed after a successful send -/

/-- coin.isPosted = true; await coin.save(). -/
def markCoinPosted (coins : List Coin) (cid : String) : List Coin :=
  coins.map (fun c => if c.id == cid then { c with isPosted := true } else c)

/-- coin.isTelegramPosted = true; await coin.save(). -/
def markCoinTelegramPosted (coins : List Coin) (cid : String) : List Coin :=
  coins.map (fun c => if c.id == cid then { c with isTelegramPosted := true } else c)

/-- news.isPosted = true; await news.save(). -/
def markNewsPosted (news : List NewsDoc) (nid : String) : List NewsDoc :=
  news.map (fun n => if n.id == nid then { n with isPosted := true } else n)

/-- news.isTelegramPosted = true; await news.save(). -/
def markNewsTelegramPosted (news : List NewsDoc) (nid : String) : List NewsDoc :=
  news.map (fun n => if n.id == nid then { n with isTelegramPosted := true } else n)

/-- await tweet.save(): an unconditional insert of one Tweet document. -/
def saveTweetRecord (db : AppDB) (t : TweetFact) : AppDB :=
  { db with tweets := db.tweets ++ [t] }

/-- await message.save(): an unconditional insert of one TelegramMessage
document. -/
def saveTelegramRecord (db : AppDB) (m : TelegramMessageFact) : AppDB :=
  { db with telegramMessages := db.telegramMessages ++ [m] }

/-- The if (tweetId) body of processNewCoinTweets: save the Tweet fact,
then mark the coin as posted. -/
def coinTweetStep (db : AppDB) (c : Coin) (tweetId : String) : AppDB :=
  let db1 := saveTweetRecord db
    { coinId := some c.id, newsId := none, type := "launch",
      tweetId := tweetId, isPosted := true }
  { db1 with coins := markCoinPosted db1.coins c.id }

/-- The if (tweetId) body of processNewsTweets. -/
def newsTweetStep (db : AppDB) (n : NewsDoc) (tweetId : String) : AppDB :=
  let db1 := saveTweetRecord db
    { coinId := none, newsId := some n.id, type := "news",
      tweetId := tweetId, isPosted := true }
  { db1 with newsItems := markNewsPosted db1.newsItems n.id }

/-- The if (messageId) body of processNewCoinMessages: save the
TelegramMessage fact with the channel chatId, then mark the coin. -/
def coinTelegramStep (db : AppDB) (c : Coin) (messageId : Nat) (channelId : String) : AppDB :=
  let db1 := saveTelegramRecord db
    { coinId := some c.id, newsId := none, type := "launch",
      messageId := messageId, chatId := channelId, isPosted := true }
  { db1 with coins := markCoinTelegramPosted db1.coins c.id }

/-- The if (messageId) body of processNewsMessages. -/
def newsTelegramStep (db : AppDB) (n : NewsDoc) (messageId : Nat) (channelId : String) : AppDB :=
  let db1 := saveTelegramRecord db
    { coinId := none, newsId := some n.id, type := "news",
      messageId := messageId, chatId := channelId, isPosted := true }
  { db1 with newsItems := markNewsTelegramPosted db1.newsItems n.id }

/-! ### The publish cycles

Each cycle fetches its selection once, then loops; the outcome oracle
stands for the Twitter or Telegram client send, returning the remote
message id on success and none on a failed or throwing send (the catch
inside the loop swallows the error and the loop continues). -/

/-- The for loop of processNewCoinTweets over the fetched selection. -/
def runCoinTweetLoop (outcome : Coin → Option String) : List Coin → AppDB → AppDB
  | [], db => db
  | c :: rest, db =>
    match outcome c with
    | some tweetId => runCoinTweetLoop outcome rest (coinTweetStep db c tweetId)
    | none => runCoinTweetLoop outcome rest db

/-- TweetService.processNewCoinTweets. -/
def processNewCoinTweets (outcome : Coin → Option String) (db : AppDB) : AppDB :=
  runCoinTweetLoop outcome (twitterUnpostedCoins db) db

/-- The for loop of processNewsTweets over the fetched selection. -/
def runNewsTweetLoop (outcome : NewsDoc → Option String) : List NewsDoc → AppDB → AppDB
  | [], db => db
  | n :: rest, db =>
    match outcome n with
    | some tweetId => runNewsTweetLoop outcome rest (newsTweetStep db n tweetId)
    | none => runNewsTweetLoop outcome rest db

/-- TweetService.processNewsTweets. -/
def processNewsTweets (outcome : NewsDoc → Option String) (db : AppDB) : AppDB :=
  runNewsTweetLoop outcome (twitterUnpostedNews db) db

/-- The for loop of processNewCoinMessages over the fetched selection. -/
def runCoinTelegramLoop (outcome : Coin → Option Nat) (channelId : String) :
    List Coin → AppDB → AppDB
  | [], db => db
  | c :: rest, db =>
    match outcome c with
    | some messageId =>
      runCoinTelegramLoop outcome channelId rest (coinTelegramStep db c messageId channelId)
    | none => runCoinTelegramLoop outcome channelId rest db

/-- TelegramService.processNewCoinMessages, sending to the channel chat. -/
def processNewCoinMessages (outcome : Coin → Option Nat) (channelId : String)
    (db : AppDB) : AppDB :=
  runCoinTelegramLoop outcome channelId (telegramUnpostedCoins db) db

/-- The for loop of processNewsMessages over the fetched selection. -/
def runNewsTelegramLoop (outcome : NewsDoc → Option Nat) (channelId : String) :
    List NewsDoc → AppDB → AppDB
  | [], db => db
  | n :: rest, db =>
    match outcome n with
    | some messageId =>
      runNewsTelegramLoop outcome channelId rest (newsTelegramStep db n messageId channelId)
    | none => runNewsTelegramLoop outcome channelId rest db

/-- TelegramService.processNewsMessages, sending to the channel chat. -/
def processNewsMessages (outcome : NewsDoc → Option Nat) (channelId : String)
    (db : AppDB) : AppDB :=
  runNewsTelegramLoop outcome channelId (telegramUnpostedNews db) db

/-- TelegramService.processGroupNews: post the first candidate lacking a
group fact; on success save a TelegramMessage with the group chatId and,
deliberately, do not set isTelegramPosted on the news document. -/
def processGroupNews (outcome : NewsDoc → Option Nat) (groupId : String)
    (db : AppDB) : AppDB :=
  match groupNewsToPost db groupId with
  | none => db
  | some newsToPost =>
    match outcome newsToPost with
    | some messageId =>
      saveTelegramRecord db
        { coinId := none, newsId := some newsToPost.id, type := "news",
          messageId := messageId, chatId := groupId, isPosted := true }
    | none => db

/-! ### Reachability through repeated publish cycles -/

/-- One scheduler-triggered publish cycle: the five cycles of the two
services, each with an arbitrary send outcome; channel sends always use
the configured channel chatId, group sends the group chatId. -/
inductive PublishStep (channelId groupId : String) : AppDB → AppDB → Prop
  | twitterCoins (outcome : Coin → Option String) (db : AppDB) :
      PublishStep channelId groupId db (processNewCoinTweets outcome db)
  | twitterNews (outcome : NewsDoc → Option String) (db : AppDB) :
      PublishStep channelId groupId db (processNewsTweets outcome db)
  | telegramCoins (outcome : Coin → Option Nat) (db : AppDB) :
      PublishStep channelId groupId db (processNewCoinMessages outcome channelId db)
  | telegramNews (outcome : NewsDoc → Option Nat) (db : AppDB) :
      PublishStep channelId groupId db (processNewsMessages outcome channelId db)
  | telegramGroup (outcome : NewsDoc → Option Nat) (db : AppDB) :
      PublishStep channelId groupId db (processGroupNews outcome groupId db)

/-- States reachable through repeated publish cycles. -/
inductive PublishReach (channelId groupId : String) : AppDB → AppDB → Prop
  | refl (db : AppDB) : PublishReach channelId groupId db db
  | tail {a b c : AppDB} : PublishReach channelId groupId a b →
      PublishStep channelId groupId b c → PublishReach channelId groupId a c

/-! ### Publication fact counts per (item, destination) pair -/

/-- The Tweet facts recorded for one coin (the Twitter destination). -/
def twitterCoinFactCount (db : AppDB) (cid : String) : Nat :=
  db.tweets.countP (fun t => t.coinId == some cid)

/-- The Tweet facts recorded for one news item. -/
def twitterNewsFactCount (db : AppDB) (nid : String) : Nat :=
  db.tweets.countP (fun t => t.newsId == some nid)

/-- The TelegramMessage facts recorded for one coin and one chat. -/
def telegramCoinFactCount (db : AppDB) (cid chat : String) : Nat :=
  db.telegramMessages.countP (fun m => m.coinId == some cid && m.chatId == chat)

/-- The TelegramMessage facts recorded for one news item and one chat. -/
def telegramNewsFactCount (db : AppDB) (nid chat : String) : Nat :=
  db.telegramMessages.countP (fun m => m.newsId == some nid && m.chatId == chat)

/-! ## The at-most-one-publication invariant

PubInv is the inductive invariant maintained by the publish cycles:
every (item, destination) pair has at most one publication fact, a fact
for a flagged destination implies the flag is set on the item, document
ids are unique (the unique index on id of both schemas), and every
stored TelegramMessage fact was stored as posted. -/

structure PubInv (channelId groupId : String) (db : AppDB) : Prop where
  coinIds : (db.coins.map (fun c => c.id)).Nodup
  newsIds : (db.newsItems.map (fun n => n.id)).Nodup
  twCoinLe : ∀ cid, twitterCoinFactCount db cid ≤ 1
  twCoinFlag : ∀ c ∈ db.coins, 0 < twitterCoinFactCount db c.id → c.isPosted = true
  twNewsLe : ∀ nid, twitterNewsFactCount db nid ≤ 1
  twNewsFlag : ∀ n ∈ db.newsItems, 0 < twitterNewsFactCount db n.id → n.isPosted = true
  tgCoinLe : ∀ cid chat, telegramCoinFactCount db cid chat ≤ 1
  tgCoinFlag : ∀ c ∈ db.coins,
    0 < telegramCoinFactCount db c.id channelId → c.isTelegramPosted = true
  tgNewsLe : ∀ nid chat, telegramNewsFactCount db nid chat ≤ 1
  tgNewsFlag : ∀ n ∈ db.newsItems,
    0 < telegramNewsFactCount db n.id channelId → n.isTelegramPosted = true
  tgPosted : ∀ m ∈ db.telegramMessages, m.isPosted = true

/-! ### How each write moves the fact counts -/

theorem coinTweetStep_twCoinCount (db : AppDB) (c0 : Coin) (tid : String) (cid : String) :
    twitterCoinFactCount (coinTweetStep db c0 tid) cid =
      twitterCoinFactCount db cid + (if c0.id = cid then 1 else 0) := by
  by_cases h : c0.id = cid <;>
    simp [twitterCoinFactCount, coinTweetStep, saveTweetRecord,
      List.countP_append, List.countP_cons, h]

theorem coinTweetStep_twNewsCount (db : AppDB) (c0 : Coin) (tid : String) (nid : String) :
    twitterNewsFactCount (coinTweetStep db c0 tid) nid = twitterNewsFactCount db nid := by
  simp [twitterNewsFactCount, coinTweetStep, saveTweetRecord,
    List.countP_append, List.countP_cons]

theorem coinTweetStep_tgCoinCount (db : AppDB) (c0 : Coin) (tid : String)
    (cid chat : String) :
    telegramCoinFactCount (coinTweetStep db c0 tid) cid chat =
      telegramCoinFactCount db cid chat := rfl

theorem coinTweetStep_tgNewsCount (db : AppDB) (c0 : Coin) (tid : String)
    (nid chat : String) :
    telegramNewsFactCount (coinTweetStep db c0 tid) nid chat =
      telegramNewsFactCount db nid chat := rfl

theorem newsTweetStep_twNewsCount (db : AppDB) (n0 : NewsDoc) (tid : String) (nid : String) :
    twitterNewsFactCount (newsTweetStep db n0 tid) nid =
      twitterNewsFactCount db nid + (if n0.id = nid then 1 else 0) := by
  by_cases h : n0.id = nid <;>
    simp [twitterNewsFactCount, newsTweetStep, saveTweetRecord,
      List.countP_append, List.countP_cons, h]

theorem newsTweetStep_twCoinCount (db : AppDB) (n0 : NewsDoc) (tid : String) (cid : String) :
    twitterCoinFactCount (newsTweetStep db n0 tid) cid = twitterCoinFactCount db cid := by
  simp [twitterCoinFactCount, newsTweetStep, saveTweetRecord,
    List.countP_append, List.countP_cons]

theorem newsTweetStep_tgCoinCount (db : AppDB) (n0 : NewsDoc) (tid : String)
    (cid chat : String) :
    telegramCoinFactCount (newsTweetStep db n0 tid) cid chat =
      telegramCoinFactCount db cid chat := rfl

theorem newsTweetStep_tgNewsCount (db : AppDB) (n0 : NewsDoc) (tid : String)
    (nid chat : String) :
    telegramNewsFactCount (newsTweetStep db n0 tid) nid chat =
      telegramNewsFactCount db nid chat := rfl

theorem coinTelegramStep_tgCoinCount (db : AppDB) (c0 : Coin) (mid : Nat)
    (channelId cid chat : String) :
    telegramCoinFactCount (coinTelegramStep db c0 mid channelId) cid chat =
      telegramCoinFactCount db cid chat +
        (if c0.id = cid ∧ channelId = chat then 1 else 0) := by
  by_cases h1 : c0.id = cid <;> by_cases h2 : channelId = chat <;>
    simp [telegramCoinFactCount, coinTelegramStep, saveTelegramRecord,
      List.countP_append, List.countP_cons, h1, h2]

theorem coinTelegramStep_tgNewsCount (db : AppDB) (c0 : Coin) (mid : Nat)
    (channelId nid chat : String) :
    telegramNewsFactCount (coinTelegramStep db c0 mid channelId) nid chat =
      telegramNewsFactCount db nid chat := by
  simp [telegramNewsFactCount, coinTelegramStep, saveTelegramRecord,
    List.countP_append, List.countP_cons]

theorem coinTelegramStep_twCoinCount (db : AppDB) (c0 : Coin) (mid : Nat)
    (channelId cid : String) :
    twitterCoinFactCount (coinTelegramStep db c0 mid channelId) cid =
      twitterCoinFactCount db cid := rfl

theorem coinTelegramStep_twNewsCount (db : AppDB) (c0 : Coin) (mid : Nat)
    (channelId nid : String) :
    twitterNewsFactCount (coinTelegramStep db c0 mid channelId) nid =
      twitterNewsFactCount db nid := rfl

theorem newsTelegramStep_tgNewsCount (db : AppDB) (n0 : NewsDoc) (mid : Nat)
    (channelId nid chat : String) :
    telegramNewsFactCount (newsTelegramStep db n0 mid channelId) nid chat =
      telegramNewsFactCount db nid chat +
        (if n0.id = nid ∧ channelId = chat then 1 else 0) := by
  by_cases h1 : n0.id = nid <;> by_cases h2 : channelId = chat <;>
    simp [telegramNewsFactCount, newsTelegramStep, saveTelegramRecord,
      List.countP_append, List.countP_cons, h1, h2]

theorem newsTelegramStep_tgCoinCount (db : AppDB) (n0 : NewsDoc) (mid : Nat)
    (channelId cid chat : String) :
    telegramCoinFactCount (newsTelegramStep db n0 mid channelId) cid chat =
      telegramCoinFactCount db cid chat := by
  simp [telegramCoinFactCount, newsTelegramStep, saveTelegramRecord,
    List.countP_append, List.countP_cons]

theorem newsTelegramStep_twCoinCount (db : AppDB) (n0 : NewsDoc) (mid : Nat)
    (channelId cid : String) :
    twitterCoinFactCount (newsTelegramStep db n0 mid channelId) cid =
      twitterCoinFactCount db cid := rfl

theorem newsTelegramStep_twNewsCount (db : AppDB) (n0 : NewsDoc) (mid : Nat)
    (channelId nid : String) :
    twitterNewsFactCount (newsTelegramStep db n0 mid channelId) nid =
      twitterNewsFactCount db nid := rfl

/-! ### The mark writes change only their own flag -/

theorem markCoinPosted_map_id (coins : List Coin) (cid : String) :
    (markCoinPosted coins cid).map (fun c => c.id) = coins.map (fun c => c.id) := by
  simp only [markCoinPosted, List.map_map]
  exact List.map_congr_left (fun c _ => by simp only [Function.comp]; split <;> rfl)

theorem markCoinTelegramPosted_map_id (coins : List Coin) (cid : String) :
    (markCoinTelegramPosted coins cid).map (fun c => c.id) = coins.map (fun c => c.id) := by
  simp only [markCoinTelegramPosted, List.map_map]
  exact List.map_congr_left (fun c _ => by simp only [Function.comp]; split <;> rfl)

theorem markNewsPosted_map_id (news : List NewsDoc) (nid : String) :
    (markNewsPosted news nid).map (fun n => n.id) = news.map (fun n => n.id) := by
  simp only [markNewsPosted, List.map_map]
  exact List.map_congr_left (fun n _ => by simp only [Function.comp]; split <;> rfl)

theorem markNewsTelegramPosted_map_id (news : List NewsDoc) (nid : String) :
    (markNewsTelegramPosted news nid).map (fun n => n.id) = news.map (fun n => n.id) := by
  simp only [markNewsTelegramPosted, List.map_map]
  exact List.map_congr_left (fun n _ => by simp only [Function.comp]; split <;> rfl)

/-! ### Each publish cycle preserves the invariant -/

theorem coinTweetStep_pubInv {ch g : String} {db : AppDB} {c0 : Coin} {tid : String}
    (hinv : PubInv ch g db) (hzero : twitterCoinFactCount db c0.id = 0) :
    PubInv ch g (coinTweetStep db c0 tid) := by
  constructor
  · show ((markCoinPosted db.coins c0.id).map (fun c => c.id)).Nodup
    rw [markCoinPosted_map_id]
    exact hinv.coinIds
  · exact hinv.newsIds
  · intro cid
    rw [coinTweetStep_twCoinCount]
    by_cases h : c0.id = cid
    · have hc : twitterCoinFactCount db cid = 0 := h ▸ hzero
      simp [h, hc]
    · simp only [if_neg h, Nat.add_zero]
      exact hinv.twCoinLe cid
  · intro c' hc' hpos
    rcases List.mem_map.mp hc' with ⟨c, hc, hceq⟩
    by_cases h : c.id = c0.id
    · rw [← hceq]
      simp [h]
    · have hcc : c' = c := by rw [← hceq]; simp [h]
      subst hcc
      rw [coinTweetStep_twCoinCount] at hpos
      rcases Nat.eq_zero_or_pos (twitterCoinFactCount db c'.id) with hz | hp
      · exfalso
        have hne : c0.id ≠ c'.id := fun he => h he.symm
        rw [hz, if_neg hne] at hpos
        exact Nat.lt_irrefl 0 hpos
      · exact hinv.twCoinFlag c' hc hp
  · intro nid
    rw [coinTweetStep_twNewsCount]
    exact hinv.twNewsLe nid
  · intro n hn hpos
    rw [coinTweetStep_twNewsCount] at hpos
    exact hinv.twNewsFlag n hn hpos
  · intro cid chat
    rw [coinTweetStep_tgCoinCount]
    exact hinv.tgCoinLe cid chat
  · intro c' hc' hpos
    rcases List.mem_map.mp hc' with ⟨c, hc, hceq⟩
    have hid : c'.id = c.id := by rw [← hceq]; split <;> rfl
    have htg : c'.isTelegramPosted = c.isTelegramPosted := by rw [← hceq]; split <;> rfl
    rw [coinTweetStep_tgCoinCount, hid] at hpos
    rw [htg]
    exact hinv.tgCoinFlag c hc hpos
  · intro nid chat
    rw [coinTweetStep_tgNewsCount]
    exact hinv.tgNewsLe nid chat
  · intro n hn hpos
    rw [coinTweetStep_tgNewsCount] at hpos
    exact hinv.tgNewsFlag n hn hpos
  · exact hinv.tgPosted

theorem runCoinTweetLoop_pubInv {ch g : String} (outcome : Coin → Option String) :
    ∀ (sel : List Coin) (db : AppDB), PubInv ch g db →
    (∀ c ∈ sel, twitterCoinFactCount db c.id = 0) →
    ((sel.map (fun c => c.id)).Nodup) →
    PubInv ch g (runCoinTweetLoop outcome sel db)
  | [], db, hinv, _, _ => hinv
  | c :: rest, db, hinv, hzero, hnd => by
    rw [List.map_cons] at hnd
    rcases List.nodup_cons.mp hnd with ⟨hnotin, hndrest⟩
    cases h : outcome c with
    | none =>
      simp only [runCoinTweetLoop, h]
      exact runCoinTweetLoop_pubInv outcome rest db hinv
        (fun c' hc' => hzero c' (List.mem_cons_of_mem c hc')) hndrest
    | some tid =>
      simp only [runCoinTweetLoop, h]
      refine runCoinTweetLoop_pubInv outcome rest _
        (coinTweetStep_pubInv hinv (hzero c (List.mem_cons_self c rest))) ?_
        hndrest
      intro c' hc'
      rw [coinTweetStep_twCoinCount]
      have hne : c.id ≠ c'.id := fun he => hnotin (he ▸ List.mem_map_of_mem _ hc')
      rw [if_neg hne, Nat.add_zero]
      exact hzero c' (List.mem_cons_of_mem c hc')

theorem processNewCoinTweets_pubInv {ch g : String} (outcome : Coin → Option String)
    (db : AppDB) (hinv : PubInv ch g db) :
    PubInv ch g (processNewCoinTweets outcome db) := by
  refine runCoinTweetLoop_pubInv outcome (twitterUnpostedCoins db) db hinv ?_ ?_
  · intro c hc
    rcases mem_selection hc with ⟨hcm, hcp⟩
    by_contra hne
    have hpos : 0 < twitterCoinFactCount db c.id := Nat.pos_of_ne_zero hne
    have hflag := hinv.twCoinFlag c hcm hpos
    rw [hflag] at hcp
    simp at hcp
  · exact selection_nodup _ _ _ _ _ hinv.coinIds

theorem newsTweetStep_pubInv {ch g : String} {db : AppDB} {n0 : NewsDoc} {tid : String}
    (hinv : PubInv ch g db) (hzero : twitterNewsFactCount db n0.id = 0) :
    PubInv ch g (newsTweetStep db n0 tid) := by
  constructor
  · exact hinv.coinIds
  · show ((markNewsPosted db.newsItems n0.id).map (fun n => n.id)).Nodup
    rw [markNewsPosted_map_id]
    exact hinv.newsIds
  · intro cid
    rw [newsTweetStep_twCoinCount]
    exact hinv.twCoinLe cid
  · intro c hc hpos
    rw [newsTweetStep_twCoinCount] at hpos
    exact hinv.twCoinFlag c hc hpos
  · intro nid
    rw [newsTweetStep_twNewsCount]
    by_cases h : n0.id = nid
    · have hc : twitterNewsFactCount db nid = 0 := h ▸ hzero
      simp [h, hc]
    · simp only [if_neg h, Nat.add_zero]
      exact hinv.twNewsLe nid
  · intro n' hn' hpos
    rcases List.mem_map.mp hn' with ⟨n, hn, hneq⟩
    by_cases h : n.id = n0.id
    · rw [← hneq]
      simp [h]
    · have hnn : n' = n := by rw [← hneq]; simp [h]
      subst hnn
      rw [newsTweetStep_twNewsCount] at hpos
      rcases Nat.eq_zero_or_pos (twitterNewsFactCount db n'.id) with hz | hp
      · exfalso
        have hne : n0.id ≠ n'.id := fun he => h he.symm
        rw [hz, if_neg hne] at hpos
        exact Nat.lt_irrefl 0 hpos
      · exact hinv.twNewsFlag n' hn hp
  · intro cid chat
    rw [newsTweetStep_tgCoinCount]
    exact hinv.tgCoinLe cid chat
  · intro c hc hpos
    rw [newsTweetStep_tgCoinCount] at hpos
    exact hinv.tgCoinFlag c hc hpos
  · intro nid chat
    rw [newsTweetStep_tgNewsCount]
    exact hinv.tgNewsLe nid chat
  · intro n' hn' hpos
    rcases List.mem_map.mp hn' with ⟨n, hn, hneq⟩
    have hid : n'.id = n.id := by rw [← hneq]; split <;> rfl
    have htg : n'.isTelegramPosted = n.isTelegramPosted := by rw [← hneq]; split <;> rfl
    rw [newsTweetStep_tgNewsCount, hid] at hpos
    rw [htg]
    exact hinv.tgNewsFlag n hn hpos
  · exact hinv.tgPosted

theorem coinTelegramStep_pubInv {ch g : String} {db : AppDB} {c0 : Coin} {mid : Nat}
    (hinv : PubInv ch g db) (hzero : telegramCoinFactCount db c0.id ch = 0) :
    PubInv ch g (coinTelegramStep db c0 mid ch) := by
  constructor
  · show ((markCoinTelegramPosted db.coins c0.id).map (fun c => c.id)).Nodup
    rw [markCoinTelegramPosted_map_id]
    exact hinv.coinIds
  · exact hinv.newsIds
  · intro cid
    rw [coinTelegramStep_twCoinCount]
    exact hinv.twCoinLe cid
  · intro c' hc' hpos
    rcases List.mem_map.mp hc' with ⟨c, hc, hceq⟩
    have hid : c'.id = c.id := by rw [← hceq]; split <;> rfl
    have hpo : c'.isPosted = c.isPosted := by rw [← hceq]; split <;> rfl
    rw [coinTelegramStep_twCoinCount, hid] at hpos
    rw [hpo]
    exact hinv.twCoinFlag c hc hpos
  · intro nid
    rw [coinTelegramStep_twNewsCount]
    exact hinv.twNewsLe nid
  · intro n hn hpos
    rw [coinTelegramStep_twNewsCount] at hpos
    exact hinv.twNewsFlag n hn hpos
  · intro cid chat
    rw [coinTelegramStep_tgCoinCount]
    by_cases h : c0.id = cid ∧ ch = chat
    · have hc : telegramCoinFactCount db cid chat = 0 := by
        rw [← h.1, ← h.2]
        exact hzero
      simp [h, hc]
    · simp only [if_neg h, Nat.add_zero]
      exact hinv.tgCoinLe cid chat
  · intro c' hc' hpos
    rcases List.mem_map.mp hc' with ⟨c, hc, hceq⟩
    by_cases h : c.id = c0.id
    · rw [← hceq]
      simp [h]
    · have hcc : c' = c := by rw [← hceq]; simp [h]
      subst hcc
      rw [coinTelegramStep_tgCoinCount] at hpos
      rcases Nat.eq_zero_or_pos (telegramCoinFactCount db c'.id ch) with hz | hp
      · exfalso
        have hne : ¬(c0.id = c'.id ∧ ch = ch) := fun hcontra => h hcontra.1.symm
        rw [hz, if_neg hne] at hpos
        exact Nat.lt_irrefl 0 hpos
      · exact hinv.tgCoinFlag c' hc hp
  · intro nid chat
    rw [coinTelegramStep_tgNewsCount]
    exact hinv.tgNewsLe nid chat
  · intro n hn hpos
    rw [coinTelegramStep_tgNewsCount] at hpos
    exact hinv.tgNewsFlag n hn hpos
  · intro m hm
    rcases List.mem_append.mp hm with hm' | hm'
    · exact hinv.tgPosted m hm'
    · rw [List.mem_singleton.mp hm']

theorem newsTelegramStep_pubInv {ch g : String} {db : AppDB} {n0 : NewsDoc} {mid : Nat}
    (hinv : PubInv ch g db) (hzero : telegramNewsFactCount db n0.id ch = 0) :
    PubInv ch g (newsTelegramStep db n0 mid ch) := by
  constructor
  · exact hinv.coinIds
  · show ((markNewsTelegramPosted db.newsItems n0.id).map (fun n => n.id)).Nodup
    rw [markNewsTelegramPosted_map_id]
    exact hinv.newsIds
  · intro cid
    rw [newsTelegramStep_twCoinCount]
    exact hinv.twCoinLe cid
  · intro c hc hpos
    rw [newsTelegramStep_twCoinCount] at hpos
    exact hinv.twCoinFlag c hc hpos
  · intro nid
    rw [newsTelegramStep_twNewsCount]
    exact hinv.twNewsLe nid
  · intro n' hn' hpos
    rcases List.mem_map.mp hn' with ⟨n, hn, hneq⟩
    have hid : n'.id = n.id := by rw [← hneq]; split <;> rfl
    have hpo : n'.isPosted = n.isPosted := by rw [← hneq]; split <;> rfl
    rw [newsTelegramStep_twNewsCount, hid] at hpos
    rw [hpo]
    exact hinv.twNewsFlag n hn hpos
  · intro cid chat
    rw [newsTelegramStep_tgCoinCount]
    exact hinv.tgCoinLe cid chat
  · intro c hc hpos
    rw [newsTelegramStep_tgCoinCount] at hpos
    exact hinv.tgCoinFlag c hc hpos
  · intro nid chat
    rw [newsTelegramStep_tgNewsCount]
    by_cases h : n0.id = nid ∧ ch = chat
    · have hc : telegramNewsFactCount db nid chat = 0 := by
        rw [← h.1, ← h.2]
        exact hzero
      simp [h, hc]
    · simp only [if_neg h, Nat.add_zero]
      exact hinv.tgNewsLe nid chat
  · intro n' hn' hpos
    rcases List.mem_map.mp hn' with ⟨n, hn, hneq⟩
    by_cases h : n.id = n0.id
    · rw [← hneq]
      simp [h]
    · have hnn : n' = n := by rw [← hneq]; simp [h]
      subst hnn
      rw [newsTelegramStep_tgNewsCount] at hpos
      rcases Nat.eq_zero_or_pos (telegramNewsFactCount db n'.id ch) with hz | hp
      · exfalso
        have hne : ¬(n0.id = n'.id ∧ ch = ch) := fun hcontra => h hcontra.1.symm
        rw [hz, if_neg hne] at hpos
        exact Nat.lt_irrefl 0 hpos
      · exact hinv.tgNewsFlag n' hn hp
  · intro m hm
    rcases List.mem_append.mp hm with hm' | hm'
    · exact hinv.tgPosted m hm'
    · rw [List.mem_singleton.mp hm']

theorem runNewsTweetLoop_pubInv {ch g : String} (outcome : NewsDoc → Option String) :
    ∀ (sel : List NewsDoc) (db : AppDB), PubInv ch g db →
    (∀ n ∈ sel, twitterNewsFactCount db n.id = 0) →
    ((sel.map (fun n => n.id)).Nodup) →
    PubInv ch g (runNewsTweetLoop outcome sel db)
  | [], db, hinv, _, _ => hinv
  | n :: rest, db, hinv, hzero, hnd => by
    rw [List.map_cons] at hnd
    rcases List.nodup_cons.mp hnd with ⟨hnotin, hndrest⟩
    cases h : outcome n with
    | none =>
      simp only [runNewsTweetLoop, h]
      exact runNewsTweetLoop_pubInv outcome rest db hinv
        (fun n' hn' => hzero n' (List.mem_cons_of_mem n hn')) hndrest
    | some tid =>
      simp only [runNewsTweetLoop, h]
      refine runNewsTweetLoop_pubInv outcome rest _
        (newsTweetStep_pubInv hinv (hzero n (List.mem_cons_self n rest))) ?_ hndrest
      intro n' hn'
      rw [newsTweetStep_twNewsCount]
      have hne : n.id ≠ n'.id := fun he => hnotin (he ▸ List.mem_map_of_mem _ hn')
      rw [if_neg hne, Nat.add_zero]
      exact hzero n' (List.mem_cons_of_mem n hn')

theorem processNewsTweets_pubInv {ch g : String} (outcome : NewsDoc → Option String)
    (db : AppDB) (hinv : PubInv ch g db) :
    PubInv ch g (processNewsTweets outcome db) := by
  refine runNewsTweetLoop_pubInv outcome (twitterUnpostedNews db) db hinv ?_ ?_
  · intro n hn
    rcases mem_selection hn with ⟨hnm, hnp⟩
    by_contra hne
    have hpos : 0 < twitterNewsFactCount db n.id := Nat.pos_of_ne_zero hne
    have hflag := hinv.twNewsFlag n hnm hpos
    rw [hflag] at hnp
    simp at hnp
  · exact selection_nodup _ _ _ _ _ hinv.newsIds

theorem runCoinTelegramLoop_pubInv {ch g : String} (outcome : Coin → Option Nat) :
    ∀ (sel : List Coin) (db : AppDB), PubInv ch g db →
    (∀ c ∈ sel, telegramCoinFactCount db c.id ch = 0) →
    ((sel.map (fun c => c.id)).Nodup) →
    PubInv ch g (runCoinTelegramLoop outcome ch sel db)
  | [], db, hinv, _, _ => hinv
  | c :: rest, db, hinv, hzero, hnd => by
    rw [List.map_cons] at hnd
    rcases List.nodup_cons.mp hnd with ⟨hnotin, hndrest⟩
    cases h : outcome c with
    | none =>
      simp only [runCoinTelegramLoop, h]
      exact runCoinTelegramLoop_pubInv outcome rest db hinv
        (fun c' hc' => hzero c' (List.mem_cons_of_mem c hc')) hndrest
    | some mid =>
      simp only [runCoinTelegramLoop, h]
      refine runCoinTelegramLoop_pubInv outcome rest _
        (coinTelegramStep_pubInv hinv (hzero c (List.mem_cons_self c rest))) ?_ hndrest
      intro c' hc'
      rw [coinTelegramStep_tgCoinCount]
      have hne : ¬(c.id = c'.id ∧ ch = ch) :=
        fun hcontra => hnotin (hcontra.1 ▸ List.mem_map_of_mem _ hc')
      rw [if_neg hne, Nat.add_zero]
      exact hzero c' (List.mem_cons_of_mem c hc')

theorem processNewCoinMessages_pubInv {ch g : String} (outcome : Coin → Option Nat)
    (db : AppDB) (hinv : PubInv ch g db) :
    PubInv ch g (processNewCoinMessages outcome ch db) := by
  refine runCoinTelegramLoop_pubInv outcome (telegramUnpostedCoins db) db hinv ?_ ?_
  · intro c hc
    rcases mem_selection hc with ⟨hcm, hcp⟩
    by_contra hne
    have hpos : 0 < telegramCoinFactCount db c.id ch := Nat.pos_of_ne_zero hne
    have hflag := hinv.tgCoinFlag c hcm hpos
    rw [hflag] at hcp
    simp at hcp
  · exact selection_nodup _ _ _ _ _ hinv.coinIds

theorem runNewsTelegramLoop_pubInv {ch g : String} (outcome : NewsDoc → Option Nat) :
    ∀ (sel : List NewsDoc) (db : AppDB), PubInv ch g db →
    (∀ n ∈ sel, telegramNewsFactCount db n.id ch = 0) →
    ((sel.map (fun n => n.id)).Nodup) →
    PubInv ch g (runNewsTelegramLoop outcome ch sel db)
  | [], db, hinv, _, _ => hinv
  | n :: rest, db, hinv, hzero, hnd => by
    rw [List.map_cons] at hnd
    rcases List.nodup_cons.mp hnd with ⟨hnotin, hndrest⟩
    cases h : outcome n with
    | none =>
      simp only [runNewsTelegramLoop, h]
      exact runNewsTelegramLoop_pubInv outcome rest db hinv
        (fun n' hn' => hzero n' (List.mem_cons_of_mem n hn')) hndrest
    | some mid =>
      simp only [runNewsTelegramLoop, h]
      refine runNewsTelegramLoop_pubInv outcome rest _
        (newsTelegramStep_pubInv hinv (hzero n (List.mem_cons_self n rest))) ?_ hndrest
      intro n' hn'
      rw [newsTelegramStep_tgNewsCount]
      have hne : ¬(n.id = n'.id ∧ ch = ch) :=
        fun hcontra => hnotin (hcontra.1 ▸ List.mem_map_of_mem _ hn')
      rw [if_neg hne, Nat.add_zero]
      exact hzero n' (List.mem_cons_of_mem n hn')

theorem processNewsMessages_pubInv {ch g : String} (outcome : NewsDoc → Option Nat)
    (db : AppDB) (hinv : PubInv ch g db) :
    PubInv ch g (processNewsMessages outcome ch db) := by
  refine runNewsTelegramLoop_pubInv outcome (telegramUnpostedNews db) db hinv ?_ ?_
  · intro n hn
    rcases mem_selection hn with ⟨hnm, hnp⟩
    by_contra hne
    have hpos : 0 < telegramNewsFactCount db n.id ch := Nat.pos_of_ne_zero hne
    have hflag := hinv.tgNewsFlag n hnm hpos
    rw [hflag] at hnp
    simp at hnp
  · exact selection_nodup _ _ _ _ _ hinv.newsIds

/-! ### The group cycle preserves the invariant -/

theorem saveTelegramRecord_tgCoinCount (db : AppDB) (m0 : TelegramMessageFact)
    (cid chat : String) :
    telegramCoinFactCount (saveTelegramRecord db m0) cid chat =
      telegramCoinFactCount db cid chat +
        (if m0.coinId = some cid ∧ m0.chatId = chat then 1 else 0) := by
  by_cases h1 : m0.coinId = some cid <;> by_cases h2 : m0.chatId = chat <;>
    simp [telegramCoinFactCount, saveTelegramRecord,
      List.countP_append, List.countP_cons, h1, h2]

theorem saveTelegramRecord_tgNewsCount (db : AppDB) (m0 : TelegramMessageFact)
    (nid chat : String) :
    telegramNewsFactCount (saveTelegramRecord db m0) nid chat =
      telegramNewsFactCount db nid chat +
        (if m0.newsId = some nid ∧ m0.chatId = chat then 1 else 0) := by
  by_cases h1 : m0.newsId = some nid <;> by_cases h2 : m0.chatId = chat <;>
    simp [telegramNewsFactCount, saveTelegramRecord,
      List.countP_append, List.countP_cons, h1, h2]

/-- The selection of processGroupNews only yields a news item with no
posted fact for the group destination, so with every stored fact posted
the fact count for the pair is zero. -/
theorem groupNewsToPost_count_zero {db : AppDB} {g : String} {n : NewsDoc}
    (hposted : ∀ m ∈ db.telegramMessages, m.isPosted = true)
    (hfind : groupNewsToPost db g = some n) :
    telegramNewsFactCount db n.id g = 0 := by
  have hp := List.find?_some hfind
  have hdest : isNewsPostedToDestination db n.id g = false := by
    cases hdd : isNewsPostedToDestination db n.id g
    · rfl
    · rw [hdd] at hp
      simp at hp
  rw [isNewsPostedToDestination, List.any_eq_false] at hdest
  rw [telegramNewsFactCount, List.countP_eq_zero]
  intro m hm
  have hfalse := hdest m hm
  rw [hposted m hm, Bool.and_true] at hfalse
  exact hfalse

theorem processGroupNews_pubInv {ch g : String} (outcome : NewsDoc → Option Nat)
    (db : AppDB) (hne : ch ≠ g) (hinv : PubInv ch g db) :
    PubInv ch g (processGroupNews outcome g db) := by
  unfold processGroupNews
  cases hfind : groupNewsToPost db g with
  | none => exact hinv
  | some n0 =>
    dsimp only
    cases houtcome : outcome n0 with
    | none => exact hinv
    | some mid =>
      have hzero : telegramNewsFactCount db n0.id g = 0 :=
        groupNewsToPost_count_zero hinv.tgPosted hfind
      constructor
      · exact hinv.coinIds
      · exact hinv.newsIds
      · intro cid
        exact hinv.twCoinLe cid
      · intro c hc hpos
        exact hinv.twCoinFlag c hc hpos
      · intro nid
        exact hinv.twNewsLe nid
      · intro n hn hpos
        exact hinv.twNewsFlag n hn hpos
      · intro cid chat
        rw [saveTelegramRecord_tgCoinCount]
        simp only [show ((none : Option String) = some cid ∧ g = chat) = False from by simp,
          if_false, Nat.add_zero]
        exact hinv.tgCoinLe cid chat
      · intro c hc hpos
        rw [saveTelegramRecord_tgCoinCount] at hpos
        simp only [show ((none : Option String) = some c.id ∧ g = ch) = False from by simp,
          if_false, Nat.add_zero] at hpos
        exact hinv.tgCoinFlag c hc hpos
      · intro nid chat
        rw [saveTelegramRecord_tgNewsCount]
        by_cases h : (some n0.id = some nid ∧ g = chat)
        · have hc : telegramNewsFactCount db nid chat = 0 := by
            have h1 : n0.id = nid := by simpa using h.1
            rw [← h1, ← h.2]
            exact hzero
          simp [h, hc]
        · simp only [if_neg h, Nat.add_zero]
          exact hinv.tgNewsLe nid chat
      · intro n hn hpos
        rw [saveTelegramRecord_tgNewsCount] at hpos
        have h : ¬(some n0.id = some n.id ∧ g = ch) := fun hcontra => hne hcontra.2.symm
        rw [if_neg h, Nat.add_zero] at hpos
        exact hinv.tgNewsFlag n hn hpos
      · intro m hm
        rcases List.mem_append.mp hm with hm' | hm'
        · exact hinv.tgPosted m hm'
        · rw [List.mem_singleton.mp hm']

/-! ### The invariant holds in every reachable state -/

theorem pubInv_step {ch g : String} {a b : AppDB} (hne : ch ≠ g)
    (hstep : PublishStep ch g a b) (hinv : PubInv ch g a) : PubInv ch g b := by
  cases hstep with
  | twitterCoins outcome => exact processNewCoinTweets_pubInv outcome a hinv
  | twitterNews outcome => exact processNewsTweets_pubInv outcome a hinv
  | telegramCoins outcome => exact processNewCoinMessages_pubInv outcome a hinv
  | telegramNews outcome => exact processNewsMessages_pubInv outcome a hinv
  | telegramGroup outcome => exact processGroupNews_pubInv outcome a hne hinv

theorem pubInv_reach {ch g : String} {a b : AppDB} (hne : ch ≠ g)
    (hreach : PublishReach ch g a b) (hinv : PubInv ch g a) : PubInv ch g b := by
  induction hreach with
  | refl => exact hinv
  | tail _ hstep ih => exact pubInv_step hne hstep ih

/-- A state with unique document ids and no publication facts at all,
such as a fresh deployment, satisfies the invariant. -/
theorem pubInv_initial {ch g : String} {db : AppDB}
    (hcoinIds : (db.coins.map (fun c => c.id)).Nodup)
    (hnewsIds : (db.newsItems.map (fun n => n.id)).Nodup)
    (htweets : db.tweets = []) (htg : db.telegramMessages = []) :
    PubInv ch g db := by
  constructor
  · exact hcoinIds
  · exact hnewsIds
  · intro cid
    simp [twitterCoinFactCount, htweets]
  · intro c hc hpos
    rw [twitterCoinFactCount, htweets] at hpos
    simp at hpos
  · intro nid
    simp [twitterNewsFactCount, htweets]
  · intro n hn hpos
    rw [twitterNewsFactCount, htweets] at hpos
    simp at hpos
  · intro cid chat
    simp [telegramCoinFactCount, htg]
  · intro c hc hpos
    rw [telegramCoinFactCount, htg] at hpos
    simp at hpos
  · intro nid chat
    simp [telegramNewsFactCount, htg]
  · intro n hn hpos
    rw [telegramNewsFactCount, htg] at hpos
    simp at hpos
  · intro m hm
    rw [htg] at hm
    simp at hm

/-! ## Claim C1 -/

/-- A sample coin document used as concrete input for claim C1. -/
def c1Coin : Coin :=
  { id := "c1", symbol := "AAA", name := "Token A", network := "bnb",
    contractAddress := "0xabc", marketCap := 0, volume24h := 0, price := 0,
    priceChange24h := 0, launchTime := 5, isPosted := false, isTelegramPosted := false }

/-- A state in which the coin c1 already carries a publication fact for
the Twitter destination. -/
def c1FactDB : AppDB :=
  { coins := [{ c1Coin with isPosted := true }], newsItems := [],
    tweets := [{ coinId := some "c1", newsId := none, type := "launch",
                 tweetId := "t1", isPosted := true }],
    telegramMessages := [] }

/-- C1, counterexample: recording a send for an (item, destination) pair
that already has a publication fact is not a no-op and does not leave
exactly one fact: executing the record write of processNewCoinTweets
for coin c1, which already has a Tweet fact, changes the state and
leaves two Tweet facts for (c1, Twitter), because the Tweet insert is
unconditional and TweetSchema has no unique index on coinId. -/
theorem claim_C1_counterexample :
    twitterCoinFactCount (coinTweetStep c1FactDB { c1Coin with isPosted := true } "t2") "c1" = 2
      ∧ coinTweetStep c1FactDB { c1Coin with isPosted := true } "t2" ≠ c1FactDB := by
  decide

/-- C1, amended: starting from any state with unique document ids and no
publication facts, in every state reachable through repeated publish
cycles (with the channel and group chat ids distinct) every
(item, destination) pair has at most one publication fact, and no cycle
selects an item already flagged or already recorded for its
destination: the two Twitter selections only return unflagged items,
the two Telegram channel selections only return unflagged items, and
the group cycle only picks a news item with no group fact. The
duplicate-publication guarantee rests on this flag- and fact-guarded
selection, not on any idempotence of the record write itself. -/
theorem claim_C1_amended (ch g : String) (db0 db : AppDB)
    (hne : ch ≠ g)
    (hcoinIds : (db0.coins.map (fun c => c.id)).Nodup)
    (hnewsIds : (db0.newsItems.map (fun n => n.id)).Nodup)
    (htweets : db0.tweets = [])
    (htg : db0.telegramMessages = [])
    (hreach : PublishReach ch g db0 db) :
    (∀ cid, twitterCoinFactCount db cid ≤ 1) ∧
    (∀ nid, twitterNewsFactCount db nid ≤ 1) ∧
    (∀ cid chat, telegramCoinFactCount db cid chat ≤ 1) ∧
    (∀ nid chat, telegramNewsFactCount db nid chat ≤ 1) ∧
    (∀ c ∈ twitterUnpostedCoins db, c.isPosted = false) ∧
    (∀ c ∈ telegramUnpostedCoins db, c.isTelegramPosted = false) ∧
    (∀ n ∈ twitterUnpostedNews db, n.isPosted = false) ∧
    (∀ n ∈ telegramUnpostedNews db, n.isTelegramPosted = false) ∧
    (∀ n, groupNewsToPost db g = some n → telegramNewsFactCount db n.id g = 0) := by
  have hinv := pubInv_reach hne hreach (pubInv_initial hcoinIds hnewsIds htweets htg)
  refine ⟨hinv.twCoinLe, hinv.twNewsLe, hinv.tgCoinLe, hinv.tgNewsLe, ?_, ?_, ?_, ?_, ?_⟩
  · intro c hc
    have h := (mem_selection hc).2
    simpa using h
  · intro c hc
    have h := (mem_selection hc).2
    simpa using h
  · intro n hn
    have h := (mem_selection hn).2
    simpa using h
  · intro n hn
    have h := (mem_selection hn).2
    simpa using h
  · intro n hfind
    exact groupNewsToPost_count_zero hinv.tgPosted hfind

/-- A fact-free one-coin starting state for the C1 witness. -/
def c1StartDB : AppDB := { coins := [c1Coin], newsItems := [], tweets := [],
                           telegramMessages := [] }

/-- The state after one Twitter coin cycle whose send succeeds. -/
def c1AfterDB : AppDB := processNewCoinTweets (fun _ => some "t1") c1StartDB

/-- C1, witness: the amended theorem applied to a concrete run of one
successful Twitter coin cycle from a fact-free one-coin state. -/
theorem claim_C1_witness :
    (("channel" : String) ≠ "group") ∧
    ((∀ cid, twitterCoinFactCount c1AfterDB cid ≤ 1) ∧
    (∀ nid, twitterNewsFactCount c1AfterDB nid ≤ 1) ∧
    (∀ cid chat, telegramCoinFactCount c1AfterDB cid chat ≤ 1) ∧
    (∀ nid chat, telegramNewsFactCount c1AfterDB nid chat ≤ 1) ∧
    (∀ c ∈ twitterUnpostedCoins c1AfterDB, c.isPosted = false) ∧
    (∀ c ∈ telegramUnpostedCoins c1AfterDB, c.isTelegramPosted = false) ∧
    (∀ n ∈ twitterUnpostedNews c1AfterDB, n.isPosted = false) ∧
    (∀ n ∈ telegramUnpostedNews c1AfterDB, n.isTelegramPosted = false) ∧
    (∀ n, groupNewsToPost c1AfterDB "group" = some n →
      telegramNewsFactCount c1AfterDB n.id "group" = 0)) :=
  ⟨by decide,
    claim_C1_amended "channel" "group" c1StartDB c1AfterDB (by decide) (by decide)
      (by decide) rfl rfl
      (PublishReach.tail (PublishReach.refl c1StartDB)
        (PublishStep.twitterCoins (fun _ => some "t1") c1StartDB))⟩

/-! ## Frame facts for claim C2 -/

/-- Erase the Twitter flag: two coin lists with equal images under this
map differ at most in their isPosted flags. -/
def Coin.clearPosted (c : Coin) : Coin := { c with isPosted := false }

/-- Erase the Telegram flag. -/
def Coin.clearTelegramPosted (c : Coin) : Coin := { c with isTelegramPosted := false }

/-- Erase the Twitter flag of a news document. -/
def NewsDoc.clearPosted (n : NewsDoc) : NewsDoc := { n with isPosted := false }

/-- Erase the Telegram flag of a news document. -/
def NewsDoc.clearTelegramPosted (n : NewsDoc) : NewsDoc := { n with isTelegramPosted := false }

/-- Set the Twitter flag on the coins whose id lies in s. -/
def setPostedIf (s : List String) (c : Coin) : Coin :=
  if s.contains c.id then { c with isPosted := true } else c

/-- Set the Telegram flag on the coins whose id lies in s. -/
def setCoinTelegramPostedIf (s : List String) (c : Coin) : Coin :=
  if s.contains c.id then { c with isTelegramPosted := true } else c

/-- Set the Twitter flag on the news documents whose id lies in s. -/
def setNewsPostedIf (s : List String) (n : NewsDoc) : NewsDoc :=
  if s.contains n.id then { n with isPosted := true } else n

/-- Set the Telegram flag on the news documents whose id lies in s. -/
def setNewsTelegramPostedIf (s : List String) (n : NewsDoc) : NewsDoc :=
  if s.contains n.id then { n with isTelegramPosted := true } else n

theorem map_setPostedIf_nil (l : List Coin) : l.map (setPostedIf []) = l := by
  have h : ∀ c ∈ l, setPostedIf [] c = id c := fun c _ => by simp [setPostedIf]
  rw [List.map_congr_left h, List.map_id]

theorem map_setCoinTelegramPostedIf_nil (l : List Coin) :
    l.map (setCoinTelegramPostedIf []) = l := by
  have h : ∀ c ∈ l, setCoinTelegramPostedIf [] c = id c :=
    fun c _ => by simp [setCoinTelegramPostedIf]
  rw [List.map_congr_left h, List.map_id]

theorem map_setNewsPostedIf_nil (l : List NewsDoc) : l.map (setNewsPostedIf []) = l := by
  have h : ∀ n ∈ l, setNewsPostedIf [] n = id n := fun n _ => by simp [setNewsPostedIf]
  rw [List.map_congr_left h, List.map_id]

theorem map_setNewsTelegramPostedIf_nil (l : List NewsDoc) :
    l.map (setNewsTelegramPostedIf []) = l := by
  have h : ∀ n ∈ l, setNewsTelegramPostedIf [] n = id n :=
    fun n _ => by simp [setNewsTelegramPostedIf]
  rw [List.map_congr_left h, List.map_id]

theorem markCoinPosted_setPostedIf (l : List Coin) (cid : String) (s : List String) :
    (markCoinPosted l cid).map (setPostedIf s) = l.map (setPostedIf (cid :: s)) := by
  simp only [markCoinPosted, List.map_map]
  refine List.map_congr_left (fun c _ => ?_)
  simp only [Function.comp]
  by_cases h : c.id = cid <;> simp [setPostedIf, List.contains_cons, h]

theorem markCoinTelegramPosted_setIf (l : List Coin) (cid : String) (s : List String) :
    (markCoinTelegramPosted l cid).map (setCoinTelegramPostedIf s)
      = l.map (setCoinTelegramPostedIf (cid :: s)) := by
  simp only [markCoinTelegramPosted, List.map_map]
  refine List.map_congr_left (fun c _ => ?_)
  simp only [Function.comp]
  by_cases h : c.id = cid <;> simp [setCoinTelegramPostedIf, List.contains_cons, h]

theorem markNewsPosted_setIf (l : List NewsDoc) (nid : String) (s : List String) :
    (markNewsPosted l nid).map (setNewsPostedIf s) = l.map (setNewsPostedIf (nid :: s)) := by
  simp only [markNewsPosted, List.map_map]
  refine List.map_congr_left (fun n _ => ?_)
  simp only [Function.comp]
  by_cases h : n.id = nid <;> simp [setNewsPostedIf, List.contains_cons, h]

theorem markNewsTelegramPosted_setIf (l : List NewsDoc) (nid : String) (s : List String) :
    (markNewsTelegramPosted l nid).map (setNewsTelegramPostedIf s)
      = l.map (setNewsTelegramPostedIf (nid :: s)) := by
  simp only [markNewsTelegramPosted, List.map_map]
  refine List.map_congr_left (fun n _ => ?_)
  simp only [Function.comp]
  by_cases h : n.id = nid <;> simp [setNewsTelegramPostedIf, List.contains_cons, h]

theorem runCoinTweetLoop_frame (outcome : Coin → Option String) :
    ∀ (sel : List Coin) (db : AppDB),
    (runCoinTweetLoop outcome sel db).newsItems = db.newsItems ∧
    (runCoinTweetLoop outcome sel db).telegramMessages = db.telegramMessages ∧
    ∃ s, (runCoinTweetLoop outcome sel db).coins = db.coins.map (setPostedIf s)
  | [], db => ⟨rfl, rfl, [], (map_setPostedIf_nil db.coins).symm⟩
  | c :: rest, db => by
    cases h : outcome c with
    | none =>
      simp only [runCoinTweetLoop, h]
      exact runCoinTweetLoop_frame outcome rest db
    | some tid =>
      simp only [runCoinTweetLoop, h]
      rcases runCoinTweetLoop_frame outcome rest (coinTweetStep db c tid) with ⟨h1, h2, s', h3⟩
      refine ⟨h1, h2, c.id :: s', ?_⟩
      rw [h3]
      exact markCoinPosted_setPostedIf db.coins c.id s'

theorem runNewsTweetLoop_frame (outcome : NewsDoc → Option String) :
    ∀ (sel : List NewsDoc) (db : AppDB),
    (runNewsTweetLoop outcome sel db).coins = db.coins ∧
    (runNewsTweetLoop outcome sel db).telegramMessages = db.telegramMessages ∧
    ∃ s, (runNewsTweetLoop outcome sel db).newsItems
      = db.newsItems.map (setNewsPostedIf s)
  | [], db => ⟨rfl, rfl, [], (map_setNewsPostedIf_nil db.newsItems).symm⟩
  | n :: rest, db => by
    cases h : outcome n with
    | none =>
      simp only [runNewsTweetLoop, h]
      exact runNewsTweetLoop_frame outcome rest db
    | some tid =>
      simp only [runNewsTweetLoop, h]
      rcases runNewsTweetLoop_frame outcome rest (newsTweetStep db n tid) with
        ⟨h1, h2, s', h3⟩
      refine ⟨h1, h2, n.id :: s', ?_⟩
      rw [h3]
      exact markNewsPosted_setIf db.newsItems n.id s'

theorem runCoinTelegramLoop_frame (outcome : Coin → Option Nat) (ch : String) :
    ∀ (sel : List Coin) (db : AppDB),
    (runCoinTelegramLoop outcome ch sel db).newsItems = db.newsItems ∧
    (runCoinTelegramLoop outcome ch sel db).tweets = db.tweets ∧
    (∃ s, (runCoinTelegramLoop outcome ch sel db).coins
      = db.coins.map (setCoinTelegramPostedIf s)) ∧
    (∃ extra, (runCoinTelegramLoop outcome ch sel db).telegramMessages
      = db.telegramMessages ++ extra ∧ ∀ m ∈ extra, m.chatId = ch)
  | [], db =>
    ⟨rfl, rfl, ⟨[], (map_setCoinTelegramPostedIf_nil db.coins).symm⟩,
      ⟨[], (List.append_nil _).symm, fun m hm => absurd hm (List.not_mem_nil m)⟩⟩
  | c :: rest, db => by
    cases h : outcome c with
    | none =>
      simp only [runCoinTelegramLoop, h]
      exact runCoinTelegramLoop_frame outcome ch rest db
    | some mid =>
      simp only [runCoinTelegramLoop, h]
      rcases runCoinTelegramLoop_frame outcome ch rest (coinTelegramStep db c mid ch) with
        ⟨h1, h2, ⟨s', h3⟩, ⟨extra', h4, h5⟩⟩
      refine ⟨h1, h2, ⟨c.id :: s', ?_⟩,
        ⟨{ coinId := some c.id, newsId := none, type := "launch", messageId := mid,
           chatId := ch, isPosted := true } :: extra', ?_, ?_⟩⟩
      · rw [h3]
        exact markCoinTelegramPosted_setIf db.coins c.id s'
      · rw [h4]
        show (coinTelegramStep db c mid ch).telegramMessages ++ extra' = _
        rw [show (coinTelegramStep db c mid ch).telegramMessages
          = db.telegramMessages ++ [_] from rfl, List.append_assoc]
        rfl
      · intro m hm
        rcases List.mem_cons.mp hm with rfl | hm'
        · rfl
        · exact h5 m hm'

theorem runNewsTelegramLoop_frame (outcome : NewsDoc → Option Nat) (ch : String) :
    ∀ (sel : List NewsDoc) (db : AppDB),
    (runNewsTelegramLoop outcome ch sel db).coins = db.coins ∧
    (runNewsTelegramLoop outcome ch sel db).tweets = db.tweets ∧
    (∃ s, (runNewsTelegramLoop outcome ch sel db).newsItems
      = db.newsItems.map (setNewsTelegramPostedIf s)) ∧
    (∃ extra, (runNewsTelegramLoop outcome ch sel db).telegramMessages
      = db.telegramMessages ++ extra ∧ ∀ m ∈ extra, m.chatId = ch)
  | [], db =>
    ⟨rfl, rfl, ⟨[], (map_setNewsTelegramPostedIf_nil db.newsItems).symm⟩,
      ⟨[], (List.append_nil _).symm, fun m hm => absurd hm (List.not_mem_nil m)⟩⟩
  | n :: rest, db => by
    cases h : outcome n with
    | none =>
      simp only [runNewsTelegramLoop, h]
      exact runNewsTelegramLoop_frame outcome ch rest db
    | some mid =>
      simp only [runNewsTelegramLoop, h]
      rcases runNewsTelegramLoop_frame outcome ch rest (newsTelegramStep db n mid ch) with
        ⟨h1, h2, ⟨s', h3⟩, ⟨extra', h4, h5⟩⟩
      refine ⟨h1, h2, ⟨n.id :: s', ?_⟩,
        ⟨{ coinId := none, newsId := some n.id, type := "news", messageId := mid,
           chatId := ch, isPosted := true } :: extra', ?_, ?_⟩⟩
      · rw [h3]
        exact markNewsTelegramPosted_setIf db.newsItems n.id s'
      · rw [h4]
        show (newsTelegramStep db n mid ch).telegramMessages ++ extra' = _
        rw [show (newsTelegramStep db n mid ch).telegramMessages
          = db.telegramMessages ++ [_] from rfl, List.append_assoc]
        rfl
      · intro m hm
        rcases List.mem_cons.mp hm with rfl | hm'
        · rfl
        · exact h5 m hm'

theorem processGroupNews_frame (outcome : NewsDoc → Option Nat) (g : String) (db : AppDB) :
    (processGroupNews outcome g db).coins = db.coins ∧
    (processGroupNews outcome g db).newsItems = db.newsItems ∧
    (processGroupNews outcome g db).tweets = db.tweets ∧
    ∀ m ∈ (processGroupNews outcome g db).telegramMessages,
      m ∈ db.telegramMessages ∨ m.chatId = g := by
  unfold processGroupNews
  cases groupNewsToPost db g with
  | none => exact ⟨rfl, rfl, rfl, fun m hm => Or.inl hm⟩
  | some n0 =>
    dsimp only
    cases outcome n0 with
    | none => exact ⟨rfl, rfl, rfl, fun m hm => Or.inl hm⟩
    | some mid =>
      refine ⟨rfl, rfl, rfl, fun m hm => ?_⟩
      rcases List.mem_append.mp hm with hm' | hm'
      · exact Or.inl hm'
      · right
        rw [List.mem_singleton.mp hm']

theorem map_clearPosted_setPostedIf (l : List Coin) (s : List String) :
    (l.map (setPostedIf s)).map Coin.clearPosted = l.map Coin.clearPosted := by
  rw [List.map_map]
  exact List.map_congr_left (fun c _ => by
    simp only [Function.comp]
    unfold setPostedIf
    split <;> rfl)

theorem map_clearTelegramPosted_setIf (l : List Coin) (s : List String) :
    (l.map (setCoinTelegramPostedIf s)).map Coin.clearTelegramPosted
      = l.map Coin.clearTelegramPosted := by
  rw [List.map_map]
  exact List.map_congr_left (fun c _ => by
    simp only [Function.comp]
    unfold setCoinTelegramPostedIf
    split <;> rfl)

theorem map_clearPosted_setNewsPostedIf (l : List NewsDoc) (s : List String) :
    (l.map (setNewsPostedIf s)).map NewsDoc.clearPosted = l.map NewsDoc.clearPosted := by
  rw [List.map_map]
  exact List.map_congr_left (fun n _ => by
    simp only [Function.comp]
    unfold setNewsPostedIf
    split <;> rfl)

theorem map_clearTelegramPosted_setNewsIf (l : List NewsDoc) (s : List String) :
    (l.map (setNewsTelegramPostedIf s)).map NewsDoc.clearTelegramPosted
      = l.map NewsDoc.clearTelegramPosted := by
  rw [List.map_map]
  exact List.map_congr_left (fun n _ => by
    simp only [Function.comp]
    unfold setNewsTelegramPostedIf
    split <;> rfl)

theorem telegramUnpostedCoins_ids_invariant {db db' : AppDB} {s : List String}
    (h : db'.coins = db.coins.map (setPostedIf s)) :
    (telegramUnpostedCoins db').map (fun c => c.id)
      = (telegramUnpostedCoins db).map (fun c => c.id) := by
  unfold telegramUnpostedCoins
  rw [h, selection_map_comm (fun c => c.launchTime) (fun c => !c.isTelegramPosted)
    (setPostedIf s) 2 db.coins
    (fun a => by unfold setPostedIf; split <;> rfl)
    (fun a => by unfold setPostedIf; split <;> rfl),
    List.map_map]
  exact List.map_congr_left (fun c _ => by
    simp only [Function.comp]
    unfold setPostedIf
    split <;> rfl)

theorem twitterUnpostedCoins_ids_invariant {db db' : AppDB} {s : List String}
    (h : db'.coins = db.coins.map (setCoinTelegramPostedIf s)) :
    (twitterUnpostedCoins db').map (fun c => c.id)
      = (twitterUnpostedCoins db).map (fun c => c.id) := by
  unfold twitterUnpostedCoins
  rw [h, selection_map_comm (fun c => c.launchTime) (fun c => !c.isPosted)
    (setCoinTelegramPostedIf s) 2 db.coins
    (fun a => by unfold setCoinTelegramPostedIf; split <;> rfl)
    (fun a => by unfold setCoinTelegramPostedIf; split <;> rfl),
    List.map_map]
  exact List.map_congr_left (fun c _ => by
    simp only [Function.comp]
    unfold setCoinTelegramPostedIf
    split <;> rfl)

theorem telegramUnpostedNews_ids_invariant {db db' : AppDB} {s : List String}
    (h : db'.newsItems = db.newsItems.map (setNewsPostedIf s)) :
    (telegramUnpostedNews db').map (fun n => n.id)
      = (telegramUnpostedNews db).map (fun n => n.id) := by
  unfold telegramUnpostedNews
  rw [h, selection_map_comm (fun n => n.publishedAt) (fun n => !n.isTelegramPosted)
    (setNewsPostedIf s) 1 db.newsItems
    (fun a => by unfold setNewsPostedIf; split <;> rfl)
    (fun a => by unfold setNewsPostedIf; split <;> rfl),
    List.map_map]
  exact List.map_congr_left (fun n _ => by
    simp only [Function.comp]
    unfold setNewsPostedIf
    split <;> rfl)

theorem twitterUnpostedNews_ids_invariant {db db' : AppDB} {s : List String}
    (h : db'.newsItems = db.newsItems.map (setNewsTelegramPostedIf s)) :
    (twitterUnpostedNews db').map (fun n => n.id)
      = (twitterUnpostedNews db).map (fun n => n.id) := by
  unfold twitterUnpostedNews
  rw [h, selection_map_comm (fun n => n.publishedAt) (fun n => !n.isPosted)
    (setNewsTelegramPostedIf s) 1 db.newsItems
    (fun a => by unfold setNewsTelegramPostedIf; split <;> rfl)
    (fun a => by unfold setNewsTelegramPostedIf; split <;> rfl),
    List.map_map]
  exact List.map_congr_left (fun n _ => by
    simp only [Function.comp]
    unfold setNewsTelegramPostedIf
    split <;> rfl)

theorem option_map_id_proj {v : NewsDoc → NewsDoc} (hv : ∀ n, (v n).id = n.id)
    (r : Option NewsDoc) :
    (r.map v).map (fun n => n.id) = r.map (fun n => n.id) := by
  cases r <;> simp [hv]

theorem groupNewsToPost_ids_invariant {db db' : AppDB} {v : NewsDoc → NewsDoc}
    {extra : List TelegramMessageFact} {g : String}
    (hid : ∀ n, (v n).id = n.id)
    (hpub : ∀ n, (v n).publishedAt = n.publishedAt)
    (hnet : ∀ n, (v n).network = n.network)
    (hnews : db'.newsItems = db.newsItems.map v)
    (htg : db'.telegramMessages = db.telegramMessages ++ extra)
    (hextra : ∀ m ∈ extra, m.chatId ≠ g) :
    (groupNewsToPost db' g).map (fun n => n.id)
      = (groupNewsToPost db g).map (fun n => n.id) := by
  have hdest : ∀ nid, isNewsPostedToDestination db' nid g
      = isNewsPostedToDestination db nid g := by
    intro nid
    unfold isNewsPostedToDestination
    rw [htg, List.any_append]
    have hex : extra.any
        (fun m => m.newsId == some nid && m.chatId == g && m.isPosted) = false := by
      rw [List.any_eq_false]
      intro m hm
      have hch : (m.chatId == g) = false := by
        simp only [beq_eq_false_iff_ne, ne_eq]
        exact hextra m hm
      simp [hch]
    rw [hex, Bool.or_false]
  unfold groupNewsToPost groupNewsCandidates
  rw [hnews, selection_map_comm (fun n => n.publishedAt)
    (fun n => groupNewsNetworks.contains n.network) v 20 db.newsItems
    hpub (fun a => by simp only []; rw [hnet a]),
    List.find?_map]
  have hfun : ((fun n => !isNewsPostedToDestination db' n.id g) ∘ v)
      = (fun n => !isNewsPostedToDestination db n.id g) := by
    funext n
    simp only [Function.comp]
    rw [hid n, hdest n.id]
  rw [hfun]
  exact option_map_id_proj hid _

/-! ## Claim C2 -/

/-- C2: publishing an item to one destination modifies only that
destination's publication state and nothing else on the item, for coins
and for news items alike. A Twitter coin cycle leaves news documents
and TelegramMessage facts untouched and changes coins at most in their
isPosted flag; a Twitter news cycle leaves coins and TelegramMessage
facts untouched and changes news documents at most in their isPosted
flag; a Telegram channel coin cycle leaves news documents and Tweet
facts untouched and changes coins at most in their isTelegramPosted
flag; a Telegram channel news cycle leaves coins and Tweet facts
untouched and changes news documents at most in their isTelegramPosted
flag; a group news cycle leaves coins, news documents and Tweet facts
entirely unchanged (in particular it never sets isTelegramPosted) and
only adds TelegramMessage facts keyed by the group chat id.
Consequently the selection of unsent items for destination B returns
the same items whether or not items were published to destination A:
the Telegram selections (coin and news) are unchanged by the Twitter
cycles, the Twitter selections are unchanged by the Telegram channel
cycles, the group candidate is unchanged by the Twitter news cycle and
(when the channel and group chat ids differ) by the channel news
cycle, and both channel news selections are unchanged by a group
cycle. -/
theorem claim_C2 (oc : Coin → Option String) (ot : NewsDoc → Option String)
    (otc : Coin → Option Nat) (onc : NewsDoc → Option Nat) (og : NewsDoc → Option Nat)
    (db : AppDB) (ch g : String) (hne : ch ≠ g) :
    ((processNewCoinTweets oc db).newsItems = db.newsItems ∧
     (processNewCoinTweets oc db).telegramMessages = db.telegramMessages ∧
     (processNewCoinTweets oc db).coins.map Coin.clearPosted
       = db.coins.map Coin.clearPosted ∧
     (telegramUnpostedCoins (processNewCoinTweets oc db)).map (fun c => c.id)
       = (telegramUnpostedCoins db).map (fun c => c.id)) ∧
    ((processNewsTweets ot db).coins = db.coins ∧
     (processNewsTweets ot db).telegramMessages = db.telegramMessages ∧
     (processNewsTweets ot db).newsItems.map NewsDoc.clearPosted
       = db.newsItems.map NewsDoc.clearPosted ∧
     (telegramUnpostedNews (processNewsTweets ot db)).map (fun n => n.id)
       = (telegramUnpostedNews db).map (fun n => n.id) ∧
     (groupNewsToPost (processNewsTweets ot db) g).map (fun n => n.id)
       = (groupNewsToPost db g).map (fun n => n.id)) ∧
    ((processNewCoinMessages otc ch db).newsItems = db.newsItems ∧
     (processNewCoinMessages otc ch db).tweets = db.tweets ∧
     (processNewCoinMessages otc ch db).coins.map Coin.clearTelegramPosted
       = db.coins.map Coin.clearTelegramPosted ∧
     (twitterUnpostedCoins (processNewCoinMessages otc ch db)).map (fun c => c.id)
       = (twitterUnpostedCoins db).map (fun c => c.id)) ∧
    ((processNewsMessages onc ch db).coins = db.coins ∧
     (processNewsMessages onc ch db).tweets = db.tweets ∧
     (processNewsMessages onc ch db).newsItems.map NewsDoc.clearTelegramPosted
       = db.newsItems.map NewsDoc.clearTelegramPosted ∧
     (twitterUnpostedNews (processNewsMessages onc ch db)).map (fun n => n.id)
       = (twitterUnpostedNews db).map (fun n => n.id) ∧
     (groupNewsToPost (processNewsMessages onc ch db) g).map (fun n => n.id)
       = (groupNewsToPost db g).map (fun n => n.id)) ∧
    ((processGroupNews og g db).coins = db.coins ∧
     (processGroupNews og g db).newsItems = db.newsItems ∧
     (processGroupNews og g db).tweets = db.tweets ∧
     (∀ m ∈ (processGroupNews og g db).telegramMessages,
        m ∈ db.telegramMessages ∨ m.chatId = g) ∧
     telegramUnpostedNews (processGroupNews og g db) = telegramUnpostedNews db ∧
     twitterUnpostedNews (processGroupNews og g db) = twitterUnpostedNews db) := by
  obtain ⟨ha1, ha2, s1, ha3⟩ := runCoinTweetLoop_frame oc (twitterUnpostedCoins db) db
  obtain ⟨ht1, ht2, s4, ht3⟩ := runNewsTweetLoop_frame ot (twitterUnpostedNews db) db
  obtain ⟨hb1, hb2, ⟨s2, hb3⟩, ⟨extra2, hb4, hb5⟩⟩ :=
    runCoinTelegramLoop_frame otc ch (telegramUnpostedCoins db) db
  obtain ⟨hn1, hn2, ⟨s3, hn3⟩, ⟨extra3, hn4, hn5⟩⟩ :=
    runNewsTelegramLoop_frame onc ch (telegramUnpostedNews db) db
  obtain ⟨hg1, hg2, hg3, hg4⟩ := processGroupNews_frame og g db
  refine ⟨⟨ha1, ha2, ?_, ?_⟩, ⟨ht1, ht2, ?_, ?_, ?_⟩, ⟨hb1, hb2, ?_, ?_⟩,
    ⟨hn1, hn2, ?_, ?_, ?_⟩, ⟨hg1, hg2, hg3, hg4, ?_, ?_⟩⟩
  · rw [show (processNewCoinTweets oc db).coins = _ from ha3, map_clearPosted_setPostedIf]
  · exact telegramUnpostedCoins_ids_invariant ha3
  · rw [show (processNewsTweets ot db).newsItems = _ from ht3,
      map_clearPosted_setNewsPostedIf]
  · exact telegramUnpostedNews_ids_invariant ht3
  · exact groupNewsToPost_ids_invariant
      (fun n => by unfold setNewsPostedIf; split <;> rfl)
      (fun n => by unfold setNewsPostedIf; split <;> rfl)
      (fun n => by unfold setNewsPostedIf; split <;> rfl)
      ht3 (ht2.trans (List.append_nil db.telegramMessages).symm)
      (fun m hm => absurd hm (List.not_mem_nil m))
  · rw [show (processNewCoinMessages otc ch db).coins = _ from hb3,
      map_clearTelegramPosted_setIf]
  · exact twitterUnpostedCoins_ids_invariant hb3
  · rw [show (processNewsMessages onc ch db).newsItems = _ from hn3,
      map_clearTelegramPosted_setNewsIf]
  · exact twitterUnpostedNews_ids_invariant hn3
  · exact groupNewsToPost_ids_invariant
      (fun n => by unfold setNewsTelegramPostedIf; split <;> rfl)
      (fun n => by unfold setNewsTelegramPostedIf; split <;> rfl)
      (fun n => by unfold setNewsTelegramPostedIf; split <;> rfl)
      hn3 hn4 (fun m hm => by rw [hn5 m hm]; exact hne)
  · unfold telegramUnpostedNews
    rw [hg2]
  · unfold twitterUnpostedNews
    rw [hg2]

/-- A coin used in the C2 witness state. -/
def c2Coin : Coin :=
  { id := "c9", symbol := "BBB", name := "Token B", network := "sui",
    contractAddress := "0xb", marketCap := 0, volume24h := 0, price := 0,
    priceChange24h := 0, launchTime := 3, isPosted := false, isTelegramPosted := false }

/-- A news document used in the C2 witness state. -/
def c2News : NewsDoc :=
  { id := "n9", title := "Sui news", description := "", url := "u",
    publishedAt := 4, coinSymbol := "SUI", network := "sui", source := "s",
    isPosted := false, isTelegramPosted := false }

/-- The C2 witness state. -/
def c2DB : AppDB :=
  { coins := [c2Coin], newsItems := [c2News], tweets := [], telegramMessages := [] }

/-- The concrete send outcomes of the C2 witness. -/
def c2Oc : Coin → Option String := fun _ => some "t9"

/-- The concrete Telegram coin send outcome of the C2 witness. -/
def c2Otc : Coin → Option Nat := fun _ => some 7

/-- The concrete channel news send outcome of the C2 witness. -/
def c2Onc : NewsDoc → Option Nat := fun _ => some 8

/-- The concrete group news send outcome of the C2 witness. -/
def c2Og : NewsDoc → Option Nat := fun _ => some 9

/-- The concrete Twitter news send outcome of the C2 witness. -/
def c2Ot : NewsDoc → Option String := fun _ => some "t8"

/-- C2, witness: the frame theorem applied to a concrete one-coin
one-news state with distinct channel and group chat ids. -/
theorem claim_C2_witness :
    (("chan" : String) ≠ "grp") ∧
    (((processNewCoinTweets c2Oc c2DB).newsItems = c2DB.newsItems ∧
     (processNewCoinTweets c2Oc c2DB).telegramMessages = c2DB.telegramMessages ∧
     (processNewCoinTweets c2Oc c2DB).coins.map Coin.clearPosted
       = c2DB.coins.map Coin.clearPosted ∧
     (telegramUnpostedCoins (processNewCoinTweets c2Oc c2DB)).map (fun c => c.id)
       = (telegramUnpostedCoins c2DB).map (fun c => c.id)) ∧
    ((processNewsTweets c2Ot c2DB).coins = c2DB.coins ∧
     (processNewsTweets c2Ot c2DB).telegramMessages = c2DB.telegramMessages ∧
     (processNewsTweets c2Ot c2DB).newsItems.map NewsDoc.clearPosted
       = c2DB.newsItems.map NewsDoc.clearPosted ∧
     (telegramUnpostedNews (processNewsTweets c2Ot c2DB)).map (fun n => n.id)
       = (telegramUnpostedNews c2DB).map (fun n => n.id) ∧
     (groupNewsToPost (processNewsTweets c2Ot c2DB) "grp").map (fun n => n.id)
       = (groupNewsToPost c2DB "grp").map (fun n => n.id)) ∧
    ((processNewCoinMessages c2Otc "chan" c2DB).newsItems = c2DB.newsItems ∧
     (processNewCoinMessages c2Otc "chan" c2DB).tweets = c2DB.tweets ∧
     (processNewCoinMessages c2Otc "chan" c2DB).coins.map Coin.clearTelegramPosted
       = c2DB.coins.map Coin.clearTelegramPosted ∧
     (twitterUnpostedCoins (processNewCoinMessages c2Otc "chan" c2DB)).map (fun c => c.id)
       = (twitterUnpostedCoins c2DB).map (fun c => c.id)) ∧
    ((processNewsMessages c2Onc "chan" c2DB).coins = c2DB.coins ∧
     (processNewsMessages c2Onc "chan" c2DB).tweets = c2DB.tweets ∧
     (processNewsMessages c2Onc "chan" c2DB).newsItems.map NewsDoc.clearTelegramPosted
       = c2DB.newsItems.map NewsDoc.clearTelegramPosted ∧
     (twitterUnpostedNews (processNewsMessages c2Onc "chan" c2DB)).map (fun n => n.id)
       = (twitterUnpostedNews c2DB).map (fun n => n.id) ∧
     (groupNewsToPost (processNewsMessages c2Onc "chan" c2DB) "grp").map (fun n => n.id)
       = (groupNewsToPost c2DB "grp").map (fun n => n.id)) ∧
    ((processGroupNews c2Og "grp" c2DB).coins = c2DB.coins ∧
     (processGroupNews c2Og "grp" c2DB).newsItems = c2DB.newsItems ∧
     (processGroupNews c2Og "grp" c2DB).tweets = c2DB.tweets ∧
     (∀ m ∈ (processGroupNews c2Og "grp" c2DB).telegramMessages,
        m ∈ c2DB.telegramMessages ∨ m.chatId = "grp") ∧
     telegramUnpostedNews (processGroupNews c2Og "grp" c2DB) = telegramUnpostedNews c2DB ∧
     twitterUnpostedNews (processGroupNews c2Og "grp" c2DB) = twitterUnpostedNews c2DB)) :=
  ⟨by decide, claim_C2 c2Oc c2Ot c2Otc c2Onc c2Og c2DB "chan" "grp" (by decide)⟩

/-! ## Claim C3 -/

/-- The asset uniqueness invariant of the spec: no two persisted coins
share (contractAddress, network). -/
def coinKeyUnique (store : List Coin) : Prop :=
  store.Pairwise (fun a b => ¬(a.contractAddress = b.contractAddress ∧ a.network = b.network))

/-- A persisted coin for claim C3. -/
def c3CoinA : Coin :=
  { id := "a", symbol := "AAA", name := "Token A", network := "bnb",
    contractAddress := "0xdead", marketCap := 0, volume24h := 0, price := 0,
    priceChange24h := 0, launchTime := 1, isPosted := false, isTelegramPosted := false }

/-- A second coin with the same (contractAddress, network) key but a
fresh id. -/
def c3CoinB : Coin := { c3CoinA with id := "b" }

/-- C3, counterexample: the persisted store's own constraints (the
unique index on id and the network enum, the only constraints
CoinSchema declares) admit an insert that duplicates the
(contractAddress, network) key, so the store does not enforce
uniqueness on that key and the resulting state violates it. -/
theorem claim_C3_counterexample :
    coinInsertOk [c3CoinA] c3CoinB = true ∧
    c3CoinA.contractAddress = c3CoinB.contractAddress ∧
    c3CoinA.network = c3CoinB.network ∧
    c3CoinA.id ≠ c3CoinB.id ∧
    ¬coinKeyUnique [c3CoinA, c3CoinB] := by
  refine ⟨by decide, by decide, by decide, by decide, ?_⟩
  intro h
  rcases List.pairwise_cons.mp h with ⟨hab, _⟩
  exact hab c3CoinB (List.mem_singleton_self c3CoinB) ⟨rfl, rfl⟩

theorem saveNewCoins_keyUnique : ∀ (batch : List CoinData) (store : List Coin),
    coinKeyUnique store → coinKeyUnique (saveNewCoins store batch).1
  | [], _, h => h
  | cd :: rest, store, h => by
    by_cases hex : (store.any (fun c =>
        c.contractAddress == cd.contractAddress && c.network == cd.network)) = true
    · simp only [saveNewCoins, hex, if_pos]
      exact saveNewCoins_keyUnique rest store h
    · by_cases hok : coinInsertOk store (Coin.ofData cd) = true
      · have hnew : coinKeyUnique (store ++ [Coin.ofData cd]) := by
          rw [coinKeyUnique, List.pairwise_append]
          refine ⟨h, List.pairwise_singleton _ _, ?_⟩
          intro a ha b hb
          rw [List.mem_singleton.mp hb]
          have hfa := List.any_eq_false.mp (Bool.not_eq_true _ ▸ hex) a ha
          intro hcontra
          apply hfa
          have h1 : a.contractAddress = cd.contractAddress := hcontra.1
          have h2 : a.network = cd.network := hcontra.2
          simp [h1, h2]
        have := saveNewCoins_keyUnique rest (store ++ [Coin.ofData cd]) hnew
        simpa only [saveNewCoins, hex, hok, if_neg, if_pos, Bool.false_eq_true,
          not_false_eq_true] using this
      · have := saveNewCoins_keyUnique rest store h
        simpa only [saveNewCoins, hex, hok, if_neg, Bool.false_eq_true,
          not_false_eq_true] using this

theorem runCoinSaveBatches_keyUnique (batches : List (List CoinData)) :
    ∀ store : List Coin, coinKeyUnique store → coinKeyUnique (runCoinSaveBatches store batches) := by
  induction batches with
  | nil => exact fun store h => h
  | cons batch rest ih =>
    intro store h
    exact ih (saveNewCoins store batch).1 (saveNewCoins_keyUnique batch store h)

/-- C3, amended: the (contractAddress, network) uniqueness invariant
does hold across repeated sequential saveNewCoins cycles, but it is
maintained by the advisory findOne check before each save, not by the
store: CoinSchema declares a unique index only on id, so the store
itself accepts key duplicates (see the counterexample). -/
theorem claim_C3_amended (store : List Coin) (batches : List (List CoinData))
    (h : coinKeyUnique store) :
    coinKeyUnique (runCoinSaveBatches store batches) :=
  runCoinSaveBatches_keyUnique batches store h

/-- A scanner record for the C3 witness. -/
def c3Data : CoinData :=
  { id := "w1", symbol := "W", name := "W", network := "sui",
    contractAddress := "0xw", marketCap := 0, volume24h := 0, price := 0,
    priceChange24h := 0, launchTime := 1 }

/-- C3, witness: the amended theorem applied to an empty store and one
batch containing the same scanner record twice. -/
theorem claim_C3_witness :
    coinKeyUnique (runCoinSaveBatches [] [[c3Data, c3Data]]) :=
  claim_C3_amended [] [[c3Data, c3Data]] List.Pairwise.nil

/-! ## Claim C4 -/

/-- Exact-title uniqueness of the persisted news store. -/
def newsTitleUnique (store : List NewsDoc) : Prop :=
  store.Pairwise (fun a b => a.title ≠ b.title)

/-- A news item for claim C4. -/
def c4ItemA : NewsItem :=
  { id := "a1", title := "Bitcoin Up", description := "", url := "u1",
    publishedAt := 1, coinSymbol := "", network := "bnb", source := "X" }

/-- A second item whose title differs from the first only in case. -/
def c4ItemB : NewsItem := { c4ItemA with id := "a2", title := "BITCOIN UP" }

/-- C4, counterexample: saving two items whose titles differ only in
case persists both, leaving two stored records with the same normalized
(lower-cased, trimmed) title, because saveNews looks up the exact
trimmed title case-sensitively and NewsSchema has no unique index on
title. -/
theorem claim_C4_counterexample :
    (saveNews [] [c4ItemA, c4ItemB]).map (fun n => normTitle n.title)
      = ["bitcoin up", "bitcoin up"] := by decide

theorem saveNews_titleUnique : ∀ (batch : List NewsItem) (store : List NewsDoc),
    newsTitleUnique store → (∀ n ∈ store, jsTrim n.title = n.title) →
    (∀ it ∈ batch, jsTrim it.title = it.title) →
    newsTitleUnique (saveNews store batch) ∧
      (∀ n ∈ saveNews store batch, jsTrim n.title = n.title)
  | [], _, h, hs, _ => ⟨h, hs⟩
  | it :: rest, store, h, hs, hb => by
    have hitTrim : jsTrim it.title = it.title := hb it (List.mem_cons_self it rest)
    have hbrest : ∀ x ∈ rest, jsTrim x.title = x.title :=
      fun x hx => hb x (List.mem_cons_of_mem it hx)
    by_cases hex : (store.any (fun n => n.title == jsTrim it.title)) = true
    · simp only [saveNews, hex, if_pos]
      exact saveNews_titleUnique rest store h hs hbrest
    · by_cases hok : newsInsertOk store (NewsDoc.ofItem it) = true
      · have hnewU : newsTitleUnique (store ++ [NewsDoc.ofItem it]) := by
          rw [newsTitleUnique, List.pairwise_append]
          refine ⟨h, List.pairwise_singleton _ _, ?_⟩
          intro a ha b hb'
          rw [List.mem_singleton.mp hb']
          have hfa := List.any_eq_false.mp (Bool.not_eq_true _ ▸ hex) a ha
          intro hcontra
          apply hfa
          show (a.title == jsTrim it.title) = true
          rw [hitTrim, hcontra]
          exact beq_self_eq_true it.title
        have hnewT : ∀ n ∈ store ++ [NewsDoc.ofItem it], jsTrim n.title = n.title := by
          intro n hn
          rcases List.mem_append.mp hn with hn' | hn'
          · exact hs n hn'
          · rw [List.mem_singleton.mp hn']
            exact hitTrim
        have := saveNews_titleUnique rest (store ++ [NewsDoc.ofItem it]) hnewU hnewT hbrest
        simpa only [saveNews, hex, hok, if_neg, if_pos, Bool.false_eq_true,
          not_false_eq_true] using this
      · have := saveNews_titleUnique rest store h hs hbrest
        simpa only [saveNews, hex, hok, if_neg, Bool.false_eq_true,
          not_false_eq_true] using this

/-- C4, amended: across repeated saveNews cycles, persisted news records
are unique by exact (case-sensitive) title, provided the store's and
the incoming titles equal their trimmed forms: the dedup key actually
used is the exact trimmed title via a case-sensitive findOne on title,
not the lower-cased normalized title (by the counterexample, items
differing only in case are both persisted). -/
theorem claim_C4_amended (store : List NewsDoc) (batches : List (List NewsItem))
    (h : newsTitleUnique store) (hs : ∀ n ∈ store, jsTrim n.title = n.title)
    (hb : ∀ batch ∈ batches, ∀ it ∈ batch, jsTrim it.title = it.title) :
    newsTitleUnique (runNewsSaveBatches store batches) := by
  induction batches generalizing store with
  | nil => exact h
  | cons batch rest ih =>
    have hbatch := saveNews_titleUnique batch store h hs
      (hb batch (List.mem_cons_self batch rest))
    exact ih (saveNews store batch) hbatch.1 hbatch.2
      (fun b hb' => hb b (List.mem_cons_of_mem batch hb'))

/-- C4, witness: the amended theorem applied to an empty store and one
batch with two distinct trim-invariant titles. -/
theorem claim_C4_witness :
    newsTitleUnique (runNewsSaveBatches [] [[c4ItemA, { c4ItemA with id := "a3", title := "Ether Down" }]]) :=
  claim_C4_amended [] [[c4ItemA, { c4ItemA with id := "a3", title := "Ether Down" }]]
    List.Pairwise.nil (fun n hn => absurd hn (List.not_mem_nil n))
    (by
      intro batch hbatch it hit
      rw [List.mem_singleton.mp hbatch] at hit
      rcases List.mem_cons.mp hit with rfl | hit'
      · decide
      · rw [List.mem_singleton.mp hit']
        decide)

/-! ## Claim C5 -/

theorem keepFirstByAddress_nodup : ∀ (seen : List String) (l : List CoinData),
    (((keepFirstByAddress seen l).map (fun c => c.contractAddress)).Nodup) ∧
    (∀ c ∈ keepFirstByAddress seen l, seen.contains c.contractAddress = false)
  | _, [] => ⟨List.nodup_nil, fun c hc => absurd hc (List.not_mem_nil c)⟩
  | seen, coin :: rest => by
    by_cases h : (seen.contains coin.contractAddress) = true
    · simp only [keepFirstByAddress, h, if_pos]
      exact keepFirstByAddress_nodup seen rest
    · simp only [keepFirstByAddress, h, if_neg, Bool.false_eq_true, not_false_eq_true]
      obtain ⟨ihn, ihs⟩ :=
        keepFirstByAddress_nodup (coin.contractAddress :: seen) rest
      constructor
      · rw [List.map_cons, List.nodup_cons]
        refine ⟨?_, ihn⟩
        intro hmem
        rcases List.mem_map.mp hmem with ⟨c, hc, hceq⟩
        have := ihs c hc
        rw [List.contains_cons] at this
        rw [hceq] at this
        simp at this
      · intro c hc
        rcases List.mem_cons.mp hc with rfl | hc'
        · exact Bool.not_eq_true _ ▸ h
        · have := ihs c hc'
          rw [List.contains_cons] at this
          rcases Bool.or_eq_false_iff.mp this with ⟨_, h2⟩
          exact h2

theorem keepFirstByAddress_subset : ∀ (seen : List String) (l : List CoinData) (c : CoinData),
    c ∈ keepFirstByAddress seen l → c ∈ l
  | _, [], c, hc => absurd hc (List.not_mem_nil c)
  | seen, coin :: rest, c, hc => by
    by_cases h : (seen.contains coin.contractAddress) = true
    · simp only [keepFirstByAddress, h, if_pos] at hc
      exact List.mem_cons_of_mem coin (keepFirstByAddress_subset seen rest c hc)
    · simp only [keepFirstByAddress, h, if_neg, Bool.false_eq_true, not_false_eq_true] at hc
      rcases List.mem_cons.mp hc with rfl | hc'
      · exact List.mem_cons_self c rest
      · exact List.mem_cons_of_mem coin
          (keepFirstByAddress_subset (coin.contractAddress :: seen) rest c hc')

theorem keepFirstByAddress_covers : ∀ (seen : List String) (l : List CoinData) (c : CoinData),
    c ∈ l → (seen.contains c.contractAddress) = false →
    ∃ c' ∈ keepFirstByAddress seen l, c'.contractAddress = c.contractAddress
  | _, [], c, hc, _ => absurd hc (List.not_mem_nil c)
  | seen, coin :: rest, c, hc, hs => by
    by_cases h : (seen.contains coin.contractAddress) = true
    · simp only [keepFirstByAddress, h, if_pos]
      rcases List.mem_cons.mp hc with rfl | hc'
      · rw [hs] at h
        exact absurd h (by simp)
      · exact keepFirstByAddress_covers seen rest c hc' hs
    · simp only [keepFirstByAddress, h, if_neg, Bool.false_eq_true, not_false_eq_true]
      rcases List.mem_cons.mp hc with rfl | hc'
      · exact ⟨c, List.mem_cons_self c _, rfl⟩
      · by_cases hcc : c.contractAddress = coin.contractAddress
        · exact ⟨coin, List.mem_cons_self coin _, hcc.symm⟩
        · have hs' : ((coin.contractAddress :: seen).contains c.contractAddress) = false := by
            rw [List.contains_cons]
            have : (c.contractAddress == coin.contractAddress) = false := by
              simp [hcc]
            rw [this, hs]
            rfl
          rcases keepFirstByAddress_covers (coin.contractAddress :: seen) rest c hc' hs' with
            ⟨c', hc'', hceq⟩
          exact ⟨c', List.mem_cons_of_mem coin hc'', hceq⟩

/-- A scanner record for claim C5 with an upper-case pool address. -/
def c5CoinA : CoinData :=
  { id := "1", symbol := "A", name := "A", network := "bnb",
    contractAddress := "0xAB", marketCap := 0, volume24h := 0, price := 0,
    priceChange24h := 0, launchTime := 1 }

/-- The same pool address in lower case. -/
def c5CoinB : CoinData := { c5CoinA with id := "2", contractAddress := "0xab", launchTime := 2 }

/-- C5, counterexample: two records whose pool addresses differ only in
case both survive removeDuplicatesAndSort, so within one scan call the
returned list can hold two records for the same case-insensitive
address: the findIndex comparison uses the exact string. -/
theorem claim_C5_counterexample :
    (removeDuplicatesAndSort [c5CoinA, c5CoinB]).countP
      (fun c => jsToLower c.contractAddress == "0xab") = 2 := by decide

/-- C5, amended: removeDuplicatesAndSort keeps at most one record per
exact (case-sensitive) contract/pool address, returns a subset of its
input that covers every input address, and sorts by launch time
descending; in particular two logs decoding to the same pool address
string in one scan call yield one emitted record. -/
theorem claim_C5_amended (coins : List CoinData) :
    (((removeDuplicatesAndSort coins).map (fun c => c.contractAddress)).Nodup) ∧
    ((removeDuplicatesAndSort coins).Pairwise (fun a b => b.launchTime ≤ a.launchTime)) ∧
    (∀ c ∈ removeDuplicatesAndSort coins, c ∈ coins) ∧
    (∀ c ∈ coins, ∃ c' ∈ removeDuplicatesAndSort coins,
      c'.contractAddress = c.contractAddress) := by
  have hperm := sortByKeyDesc_perm (fun c : CoinData => c.launchTime)
    (keepFirstByAddress [] coins)
  refine ⟨?_, sortByKeyDesc_pairwise _ _, ?_, ?_⟩
  · exact ((hperm.map (fun c => c.contractAddress)).nodup_iff).mpr
      (keepFirstByAddress_nodup [] coins).1
  · intro c hc
    exact keepFirstByAddress_subset [] coins c (hperm.mem_iff.mp hc)
  · intro c hc
    rcases keepFirstByAddress_covers [] coins c hc rfl with ⟨c', hc', hceq⟩
    exact ⟨c', hperm.mem_iff.mpr hc', hceq⟩

/-- C5, witness: the amended theorem applied to a concrete batch with a
repeated pool address. -/
theorem claim_C5_witness :
    (((removeDuplicatesAndSort [c5CoinA, c5CoinA]).map (fun c => c.contractAddress)).Nodup) ∧
    ((removeDuplicatesAndSort [c5CoinA, c5CoinA]).Pairwise
      (fun a b => b.launchTime ≤ a.launchTime)) ∧
    (∀ c ∈ removeDuplicatesAndSort [c5CoinA, c5CoinA], c ∈ [c5CoinA, c5CoinA]) ∧
    (∀ c ∈ [c5CoinA, c5CoinA], ∃ c' ∈ removeDuplicatesAndSort [c5CoinA, c5CoinA],
      c'.contractAddress = c.contractAddress) :=
  claim_C5_amended [c5CoinA, c5CoinA]

/-! ## Claims C6 and C7 -/

theorem removeDuplicatesGo_nodup : ∀ (seen : List String) (l : List NewsItem),
    (((removeDuplicatesGo seen l).map (fun x => normTitle x.title)).Nodup) ∧
    (∀ x ∈ removeDuplicatesGo seen l, seen.contains (normTitle x.title) = false)
  | _, [] => ⟨List.nodup_nil, fun x hx => absurd hx (List.not_mem_nil x)⟩
  | seen, item :: rest => by
    by_cases h : (seen.contains (jsTrim (jsToLower item.title))) = true
    · simp only [removeDuplicatesGo, h, if_pos]
      exact removeDuplicatesGo_nodup seen rest
    · simp only [removeDuplicatesGo, h, if_neg, Bool.false_eq_true, not_false_eq_true]
      obtain ⟨ihn, ihs⟩ :=
        removeDuplicatesGo_nodup (jsTrim (jsToLower item.title) :: seen) rest
      constructor
      · rw [List.map_cons, List.nodup_cons]
        refine ⟨?_, ihn⟩
        intro hmem
        rcases List.mem_map.mp hmem with ⟨x, hx, hxeq⟩
        have hcon := ihs x hx
        rw [List.contains_cons] at hcon
        have hxeq' : normTitle x.title = normTitle item.title := hxeq
        rw [hxeq'] at hcon
        rcases Bool.or_eq_false_iff.mp hcon with ⟨h1, _⟩
        have h2 : (normTitle item.title == jsTrim (jsToLower item.title)) = true :=
          beq_self_eq_true (normTitle item.title)
        rw [h1] at h2
        exact Bool.false_ne_true h2
      · intro x hx
        rcases List.mem_cons.mp hx with rfl | hx'
        · exact Bool.not_eq_true _ ▸ h
        · have := ihs x hx'
          rw [List.contains_cons] at this
          rcases Bool.or_eq_false_iff.mp this with ⟨_, h2⟩
          exact h2

theorem removeDuplicatesGo_subset : ∀ (seen : List String) (l : List NewsItem) (x : NewsItem),
    x ∈ removeDuplicatesGo seen l → x ∈ l
  | _, [], x, hx => absurd hx (List.not_mem_nil x)
  | seen, item :: rest, x, hx => by
    by_cases h : (seen.contains (jsTrim (jsToLower item.title))) = true
    · simp only [removeDuplicatesGo, h, if_pos] at hx
      exact List.mem_cons_of_mem item (removeDuplicatesGo_subset seen rest x hx)
    · simp only [removeDuplicatesGo, h, if_neg, Bool.false_eq_true, not_false_eq_true] at hx
      rcases List.mem_cons.mp hx with rfl | hx'
      · exact List.mem_cons_self x rest
      · exact List.mem_cons_of_mem item
          (removeDuplicatesGo_subset (jsTrim (jsToLower item.title) :: seen) rest x hx')

theorem removeDuplicatesGo_covers : ∀ (seen : List String) (l : List NewsItem) (x : NewsItem),
    x ∈ l → (seen.contains (normTitle x.title)) = false →
    ∃ y ∈ removeDuplicatesGo seen l, normTitle y.title = normTitle x.title
  | _, [], x, hx, _ => absurd hx (List.not_mem_nil x)
  | seen, item :: rest, x, hx, hs => by
    by_cases h : (seen.contains (jsTrim (jsToLower item.title))) = true
    · simp only [removeDuplicatesGo, h, if_pos]
      rcases List.mem_cons.mp hx with rfl | hx'
      · rw [show normTitle x.title = jsTrim (jsToLower x.title) from rfl] at hs
        rw [hs] at h
        exact absurd h (by simp)
      · exact removeDuplicatesGo_covers seen rest x hx' hs
    · simp only [removeDuplicatesGo, h, if_neg, Bool.false_eq_true, not_false_eq_true]
      rcases List.mem_cons.mp hx with rfl | hx'
      · exact ⟨x, List.mem_cons_self x _, rfl⟩
      · by_cases hcc : normTitle x.title = normTitle item.title
        · exact ⟨item, List.mem_cons_self item _, hcc.symm⟩
        · have hs' : ((jsTrim (jsToLower item.title) :: seen).contains
              (normTitle x.title)) = false := by
            rw [List.contains_cons]
            have hne : (normTitle x.title == jsTrim (jsToLower item.title)) = false := by
              simp only [beq_eq_false_iff_ne, ne_eq]
              exact hcc
            rw [hne, hs]
            rfl
          rcases removeDuplicatesGo_covers (jsTrim (jsToLower item.title) :: seen) rest x
            hx' hs' with ⟨y, hy, hyeq⟩
          exact ⟨y, List.mem_cons_of_mem item hy, hyeq⟩

/-- A general-path item for claim C6. -/
def c6General : NewsItem :=
  { id := "g1", title := "Sui rally", description := "", url := "u",
    publishedAt := 5, coinSymbol := "", network := "general", source := "CryptoPanic" }

/-- A SUI-path item telling the same story with different casing and
trailing space. -/
def c6Sui : NewsItem :=
  { id := "s1", title := "SUI RALLY ", description := "", url := "v",
    publishedAt := 3, coinSymbol := "SUI", network := "sui", source := "NewsAPI" }

/-- C6, counterexample: when the general path and the SUI path each
return one item whose titles agree after normalization, the combined
output of getAllNews keeps both, because duplicates are only removed
inside the SUI path, never across the two paths before combination. -/
theorem claim_C6_counterexample :
    ((getAllNews ⟨true, [c6General]⟩ ⟨false, []⟩ ⟨true, [c6Sui]⟩ ⟨false, []⟩).data.combined.map
      (fun n => normTitle n.title)) = ["sui rally", "sui rally"] := by decide

/-- C6, amended: getAllNews always reports success; its combined list is
a permutation of the general list followed by the SUI list, sorted by
publish time descending; only the SUI path is deduplicated by
normalized (lower-cased, trimmed) title, so the combined list can carry
cross-path duplicates (see the counterexample). -/
theorem claim_C6_amended (cp ct na g : NewsFetchResult) :
    (getAllNews cp ct na g).success = true ∧
    ((getAllNews cp ct na g).data.combined.Pairwise
      (fun a b => b.publishedAt ≤ a.publishedAt)) ∧
    ((getAllNews cp ct na g).data.combined.Perm
      ((getAllNews cp ct na g).data.general ++ (getAllNews cp ct na g).data.sui)) ∧
    (((getAllNews cp ct na g).data.sui.map (fun n => normTitle n.title)).Nodup) := by
  refine ⟨rfl, sortByKeyDesc_pairwise _ _, sortByKeyDesc_perm _ _, ?_⟩
  exact (removeDuplicatesGo_nodup [] _).1

/-- C6, witness: the amended theorem applied to the concrete inputs of
the counterexample. -/
theorem claim_C6_witness :
    (getAllNews ⟨true, [c6General]⟩ ⟨false, []⟩ ⟨true, [c6Sui]⟩ ⟨false, []⟩).success = true ∧
    ((getAllNews ⟨true, [c6General]⟩ ⟨false, []⟩ ⟨true, [c6Sui]⟩ ⟨false, []⟩).data.combined.Pairwise
      (fun a b => b.publishedAt ≤ a.publishedAt)) ∧
    ((getAllNews ⟨true, [c6General]⟩ ⟨false, []⟩ ⟨true, [c6Sui]⟩ ⟨false, []⟩).data.combined.Perm
      ((getAllNews ⟨true, [c6General]⟩ ⟨false, []⟩ ⟨true, [c6Sui]⟩ ⟨false, []⟩).data.general ++
        (getAllNews ⟨true, [c6General]⟩ ⟨false, []⟩ ⟨true, [c6Sui]⟩ ⟨false, []⟩).data.sui)) ∧
    (((getAllNews ⟨true, [c6General]⟩ ⟨false, []⟩ ⟨true, [c6Sui]⟩ ⟨false, []⟩).data.sui.map
      (fun n => normTitle n.title)).Nodup) :=
  claim_C6_amended ⟨true, [c6General]⟩ ⟨false, []⟩ ⟨true, [c6Sui]⟩ ⟨false, []⟩

/-- C7, counterexample: when both SUI sources fail, getSuiNews still
reports success with an empty list, so the chain-specific path never
reports total failure, contradicting that it reports failure exactly
when every configured source fails. -/
theorem claim_C7_counterexample :
    (getSuiNews ⟨false, []⟩ ⟨false, []⟩).success = true ∧
    (getSuiNews ⟨false, []⟩ ⟨false, []⟩).data = [] := by decide

/-- C7, amended: getSuiNews merges whatever subset of its two always-run
sources succeeded (a failed source contributes nothing), deduplicates
the union by normalized title (the output covers every contributed item
up to normalized title and contains no normalized-title duplicate), and
always reports success, returning an empty success rather than a
failure when every source fails. -/
theorem claim_C7_amended (na g : NewsFetchResult) :
    (getSuiNews na g).success = true ∧
    (((getSuiNews na g).data.map (fun n => normTitle n.title)).Nodup) ∧
    (∀ x ∈ (getSuiNews na g).data,
      x ∈ (if na.success then na.data else []) ++ (if g.success then g.data else [])) ∧
    (∀ x ∈ (if na.success then na.data else []) ++ (if g.success then g.data else []),
      ∃ y ∈ (getSuiNews na g).data, normTitle y.title = normTitle x.title) := by
  refine ⟨rfl, (removeDuplicatesGo_nodup [] _).1, ?_, ?_⟩
  · intro x hx
    exact removeDuplicatesGo_subset [] _ x hx
  · intro x hx
    exact removeDuplicatesGo_covers [] _ x hx rfl

/-- C7, witness: the amended theorem applied to one successful and one
failed source. -/
theorem claim_C7_witness :
    (getSuiNews ⟨true, [c6Sui]⟩ ⟨false, []⟩).success = true ∧
    (((getSuiNews ⟨true, [c6Sui]⟩ ⟨false, []⟩).data.map (fun n => normTitle n.title)).Nodup) ∧
    (∀ x ∈ (getSuiNews ⟨true, [c6Sui]⟩ ⟨false, []⟩).data,
      x ∈ (if (true : Bool) then [c6Sui] else []) ++ (if (false : Bool) then ([] : List NewsItem) else [])) ∧
    (∀ x ∈ (if (true : Bool) then [c6Sui] else []) ++ (if (false : Bool) then ([] : List NewsItem) else []),
      ∃ y ∈ (getSuiNews ⟨true, [c6Sui]⟩ ⟨false, []⟩).data,
        normTitle y.title = normTitle x.title) :=
  claim_C7_amended ⟨true, [c6Sui]⟩ ⟨false, []⟩

/-! ## Claim C8 -/

theorem getBlockWithCache_length_le (cache : List (Nat × CachedBlock)) (bn : Nat)
    (fetched : Option CachedBlock) (h : cache.length ≤ 101) :
    (getBlockWithCache cache bn fetched).2.length ≤ 101 := by
  unfold getBlockWithCache
  cases cache.lookup bn with
  | some b => exact h
  | none =>
    cases fetched with
    | none => exact h
    | some block =>
      dsimp only
      by_cases hlen : cache.length > 100
      · rw [if_pos hlen, List.length_append, List.length_tail]
        simp only [List.length_singleton]
        omega
      · rw [if_neg hlen, List.length_append]
        simp only [List.length_singleton]
        omega

theorem runBlockLookups_length_le : ∀ (calls : List (Nat × Option CachedBlock))
    (cache : List (Nat × CachedBlock)), cache.length ≤ 101 →
    (runBlockLookups cache calls).length ≤ 101
  | [], _, h => h
  | (bn, fetched) :: rest, cache, h =>
    runBlockLookups_length_le rest (getBlockWithCache cache bn fetched).2
      (getBlockWithCache_length_le cache bn fetched h)

/-- The 101 successful lookups of distinct block numbers used to refute
the stated capacity bound. -/
def c8Calls : List (Nat × Option CachedBlock) :=
  (List.range 101).map (fun i => (i, some ⟨i, 0⟩))

set_option maxRecDepth 100000 in
/-- C8, counterexample: 101 successful lookups of distinct block numbers
starting from an empty cache leave 101 entries, exceeding the
configured capacity constant 100, because the eviction check
size greater than 100 runs before the insert. -/
theorem claim_C8_counterexample :
    (runBlockLookups [] c8Calls).length = 101 ∧
    100 < (runBlockLookups [] c8Calls).length := by
  constructor <;> decide

/-- C8, amended: across every sequence of block lookups within one scan
invocation starting from an empty cache, the block cache never holds
more than 101 entries (the capacity constant is 100, checked strictly
before the insert, so the cache settles at 101); when an insert happens
with the cache above 100 entries the oldest (first-inserted) entry is
evicted; and a cache hit leaves the cache unchanged. -/
theorem claim_C8_amended :
    (∀ calls : List (Nat × Option CachedBlock), (runBlockLookups [] calls).length ≤ 101) ∧
    (∀ (cache : List (Nat × CachedBlock)) (bn : Nat) (b : CachedBlock),
      cache.lookup bn = none → 100 < cache.length →
      (getBlockWithCache cache bn (some b)).2 = cache.tail ++ [(bn, b)]) ∧
    (∀ (cache : List (Nat × CachedBlock)) (bn : Nat) (b0 : CachedBlock)
      (fetched : Option CachedBlock), cache.lookup bn = some b0 →
      getBlockWithCache cache bn fetched = (some b0, cache)) := by
  refine ⟨fun calls => runBlockLookups_length_le calls [] (by simp), ?_, ?_⟩
  · intro cache bn b hmiss hlen
    unfold getBlockWithCache
    rw [hmiss]
    dsimp only
    rw [if_pos hlen]
  · intro cache bn b0 fetched hhit
    unfold getBlockWithCache
    rw [hhit]

set_option maxRecDepth 100000 in
/-- C8, witness: the amended theorem applied to a concrete call
sequence, a concrete 102-entry cache miss, and a concrete hit. -/
theorem claim_C8_witness :
    ((runBlockLookups [] [(5, some ⟨5, 7⟩), (5, some ⟨5, 7⟩)]).length ≤ 101) ∧
    ((getBlockWithCache ((List.range 102).map (fun i => (i, (⟨i, 0⟩ : CachedBlock)))) 500
        (some ⟨500, 1⟩)).2
      = ((List.range 102).map (fun i => (i, (⟨i, 0⟩ : CachedBlock)))).tail ++ [(500, ⟨500, 1⟩)]) ∧
    (getBlockWithCache [(5, (⟨5, 7⟩ : CachedBlock))] 5 none = (some ⟨5, 7⟩, [(5, ⟨5, 7⟩)])) :=
  ⟨claim_C8_amended.1 [(5, some ⟨5, 7⟩), (5, some ⟨5, 7⟩)],
   claim_C8_amended.2.1 ((List.range 102).map (fun i => (i, ⟨i, 0⟩))) 500 ⟨500, 1⟩
     (by decide) (by decide),
   claim_C8_amended.2.2 [(5, ⟨5, 7⟩)] 5 ⟨5, 7⟩ none (by decide)⟩

/-! ## Claim C9 -/

/-- A raw CryptoPanic post with a fresh title, for claim C9. -/
def c9Post : CryptoPanicPost :=
  { postId := "77", title := "Markets rally", description := "", url := "u",
    published_at := 9 }

/-- C9: the general-news path tags its items with the network value
general, but the NewsSchema network enum only admits sui and bnb, so
the store rejects the insert and saveNews persists nothing even though
the title is fresh, while processGroupNews itself queries for persisted
news with network general; general news therefore never reaches
storage, contradicting the claim and the code's own group-news query. -/
theorem claim_C9_bug :
    (cryptoPanicItem c9Post).network = "general" ∧
    networkEnum.contains (cryptoPanicItem c9Post).network = false ∧
    newsInsertOk [] (NewsDoc.ofItem (cryptoPanicItem c9Post)) = false ∧
    saveNews [] [cryptoPanicItem c9Post] = [] ∧
    (getCryptoPanicNews (some [c9Post])).data = [cryptoPanicItem c9Post] ∧
    groupNewsNetworks.contains "general" = true := by decide

/-! ## Claim C10 -/

/-- C10: whenever parseSuiEvent returns a record, that record's
contract/pool address is non-empty and its chain tag is sui; an event
from which no contract/pool address can be resolved is discarded (the
parser returns none), whichever of the recognized payload shapes or the
event-type fallback applied. -/
theorem claim_C10 (now : Int) (ev : SuiEvent) (r : CoinData)
    (h : parseSuiEvent now ev = some r) :
    r.contractAddress.data.isEmpty = false ∧ r.network = "sui" := by
  unfold parseSuiEvent at h
  dsimp only at h
  repeat' split at h
  all_goals try (exact Option.noConfusion h)
  all_goals
    injection h with h
    subst h
    refine ⟨?_, rfl⟩
    simp_all

/-- A concrete Sui event of the single coin-type-string shape. -/
def c10Event : SuiEvent :=
  { timestampMs := some 1000,
    parsedJson := some
      { token_x := none, token_y := none, coin_type_a := none,
        coin_type_b := none, coin_type := some "0x2::sui::SUI",
        pool_id := none, pair := none },
    id := some { txDigest := "digest123", eventSeq := some "1" },
    type := some "0x2::amm::PairCreated" }

/-- The record the parser produces for that event. -/
def c10Result : CoinData :=
  { id := "0x2::sui::SUI-1", symbol := "SUI", name := "SUI", network := "sui",
    contractAddress := "0x2::sui::SUI", marketCap := 0, volume24h := 0,
    price := 0, priceChange24h := 0, launchTime := 1000 }

/-- C10, witness: the theorem applied to a concrete parsed event. -/
theorem claim_C10_witness :
    parseSuiEvent 0 c10Event = some c10Result ∧
    c10Result.contractAddress.data.isEmpty = false ∧ c10Result.network = "sui" :=
  ⟨by decide, claim_C10 0 c10Event c10Result (by decide)⟩
